import Mathlib

/-! ConfigurationDialog of the Weather Routing plugin

A shallow embedding of `src/ConfigurationDialog.cpp`: the projection between the
widgets of the configuration dialog and a `RouteMapConfiguration`
(`SetConfiguration`, `Configuration`), the generation of degree steps from a
range (`GenerateDegreeSteps`) and the forwarding of the configuration read from
the widgets to the current route (`Update`).

Modelling conventions.

* A finite C++ `double` is the rational number it stands for. A sum, product or
  quotient of doubles is rounded to the nearest binary64 number, ties to even,
  by `binary64`; comparison, negation and the conversion to `int` are exact.
  Magnitudes beyond the binary64 range do not arise. The two zeros are one
  number.
* The three locals `from`, `to`, `by` of `GenerateDegreeSteps` are of type
  `Double`, which adds NaN: every comparison with NaN is false.
* A C++ `int` is an integer (`ℤ`); `/` and `%` on `int` are the truncating
  `Int.tdiv` and `Int.tmod`.
* A `wxString` that `Configuration` reads back with `ToDouble` is abstracted to
  `Text`: a numeral, given by the number `ToDouble` reads from it, or text that
  `ToDouble` does not accept.
* A modal `wxMessageDialog` is recorded as a `MessageDialog` in the list of
  dialogs a function has shown, in order.
* A loop whose termination depends on its data takes a fuel argument and returns
  `none` when the fuel runs out.
* `positive_degrees` (declared in `Utilities.h`) has no body among the sources
  and is a parameter of the functions that call it.
-/

namespace ConfigurationDialog

/-! ## Numbers -/

/-- Rounding to the nearest integer, ties to the even one. -/
def roundHalfEven (x : ℚ) : ℤ :=
  if 2 * (x - ⌊x⌋) < 1 then ⌊x⌋
  else if 1 < 2 * (x - ⌊x⌋) then ⌊x⌋ + 1
  else if ⌊x⌋ % 2 = 0 then ⌊x⌋ else ⌊x⌋ + 1

/-- The distance between neighbouring binary64 numbers at `x`: `2 ^ (e - 52)`
for `2 ^ e ≤ |x| < 2 ^ (e + 1)`, and `2 ^ (-1074)` below `2 ^ (-1022)`. -/
def quantum (x : ℚ) : ℚ :=
  2 ^ (max (Int.log 2 |x|) (-1022) - 52)

/-- The binary64 number nearest to `x`, ties to the even significand: the result
of a `double` operation whose exact result is `x`. -/
def binary64 (x : ℚ) : ℚ :=
  if x = 0 then 0 else (roundHalfEven (x / quantum x) : ℚ) * quantum x

/-- A C++ `double` as `GenerateDegreeSteps` holds it in `from`, `to`, `by` and
`v`: a number or NaN. An infinity is not listed: the guard of
`GenerateDegreeSteps` treats it as it treats a finite number of the same sign
beyond 180. -/
inductive Double where
  | finite (value : ℚ)
  | nan
deriving DecidableEq

/-- The comparison `a < b` of two doubles: false when either is NaN. -/
def Double.lt : Double → Double → Bool
  | Double.finite a, Double.finite b => decide (a < b)
  | _, _ => false

/-- The comparison `a <= b` of two doubles: false when either is NaN. -/
def Double.le : Double → Double → Bool
  | Double.finite a, Double.finite b => decide (a ≤ b)
  | _, _ => false

/-- The sum `a + b` of two doubles: rounded to binary64, NaN when either is. -/
def Double.add : Double → Double → Double
  | Double.finite a, Double.finite b => Double.finite (binary64 (a + b))
  | _, _ => Double.nan

/-- The conversion `(int)x` of a `double`: truncation toward zero. -/
def toInt (x : ℚ) : ℤ :=
  if 0 ≤ x then ⌊x⌋ else ⌈x⌉

/-- The result of `std::list<double>::sort()`: the ascending arrangement of the
elements of the list. -/
def sort (l : List ℚ) : List ℚ :=
  l.insertionSort (fun a b => a ≤ b)

/-! ## Text -/

/-- Content of a text control or of a list-box entry that `Configuration` reads,
as `wxString::ToDouble` sees it: a numeral, given by the number `value` that
`ToDouble` reads from it, or text that `ToDouble` does not accept. A text that
`ToDouble` reads as NaN or as an infinity is not listed: the degree steps of a
`RouteMapConfiguration` are numbers here, and what `Configuration` shows, the
time step it returns and how many degree steps it returns do not depend on what
an entry reads as. -/
inductive Text where
  | number (value : ℚ)
  | malformed (raw : String)
deriving DecidableEq

/-- The call `text.ToDouble(&val)`: the success flag and the content of `val`
after the call. On success the number is stored in `val`; on failure `val` keeps
the content it had. Every caller in the file drops the flag. -/
def Text.ToDouble (text : Text) (val : ℚ) : Bool × ℚ :=
  match text with
  | Text.number value => (true, value)
  | Text.malformed _ => (false, val)

/-- The text `wxString::Format(_T("%.Nf"), x)` with `N = decimals`: the numeral
with `decimals` digits after the point that is nearest to `x`, ties to even. As
every numeral it is given by the number `ToDouble` reads from it, the binary64
number nearest to the numeral. -/
def Format (decimals : ℕ) (x : ℚ) : Text :=
  Text.number (binary64 ((roundHalfEven (x * 10 ^ decimals) : ℚ) / 10 ^ decimals))

/-! ## Data model -/

/-- The part of a `wxDateTime` the dialog reads and writes: the calendar date
(as a day number) and the hour and minute of the day. -/
structure wxDateTime where
  date : ℤ
  hour : ℤ
  minute : ℤ
deriving DecidableEq

/-- The enumeration `RouteMapConfiguration::IntegratorType`. -/
inductive IntegratorType where
  | NEWTON
  | RUNGE_KUTTA
deriving DecidableEq

/-- The fields of `RouteMapConfiguration` that `ConfigurationDialog.cpp` reads
and writes. The declaration (`RouteMap.h`) is not among the sources at hand; the
numeric limits are copied unchanged between a spin control and the field in both
directions and are kept as integers. -/
structure RouteMapConfiguration where
  Start : String
  StartTime : wxDateTime
  boatFileName : String
  dt : ℤ
  End : String
  DegreeSteps : List ℚ
  Integrator : IntegratorType
  MaxDivertedCourse : ℤ
  MaxSearchAngle : ℤ
  MaxWindKnots : ℤ
  MaxSwellMeters : ℤ
  MaxLatitude : ℤ
  MaxTacks : ℤ
  TackingTime : ℤ
  AvoidCycloneTracks : Bool
  CycloneMonths : ℤ
  CycloneDays : ℤ
  CycloneWindSpeed : ℤ
  CycloneClimatologyStartYear : ℤ
  DetectLand : Bool
  Currents : Bool
  InvertedRegions : Bool
  Anchoring : Bool
  AllowDataDeficient : Bool
  UseGrib : Bool
  ClimatologyType : ℤ
deriving DecidableEq

/-- The widgets of the dialog that `SetConfiguration` writes and `Configuration`
reads. A spin control holds an `int`, a check box or radio button a `bool`, a
text control a `Text`, the list box of degree steps a list of `Text`. -/
structure Widgets where
  m_cStart : String
  m_dpStartDate : wxDateTime
  m_tStartHour : Text
  m_fpBoat : String
  m_sTimeStepHours : ℤ
  m_sTimeStepMinutes : ℤ
  m_sTimeStepSeconds : ℤ
  m_cEnd : String
  m_lDegreeSteps : List Text
  m_rbNewton : Bool
  m_rbRungeKutta : Bool
  m_sMaxDivertedCourse : ℤ
  m_sMaxSearchAngle : ℤ
  m_sMaxWindKnots : ℤ
  m_sMaxSwellMeters : ℤ
  m_sMaxLatitude : ℤ
  m_sMaxTacks : ℤ
  m_sTackingTime : ℤ
  m_cAvoidCycloneTracks : Bool
  m_sCycloneMonths : ℤ
  m_sCycloneDays : ℤ
  m_sCycloneWindSpeed : ℤ
  m_sCycloneClimatologyStartYear : ℤ
  m_cbDetectLand : Bool
  m_cbCurrents : Bool
  m_cbInvertedRegions : Bool
  m_cbAnchoring : Bool
  m_cbAllowDataDeficient : Bool
  m_cbUseGrib : Bool
  m_cClimatologyType : ℤ
deriving DecidableEq

/-- The indeterminate contents of the `double` locals of `Configuration` that
are declared without initializer and handed to `ToDouble`: `hour`, and `step` in
the `i`-th pass of the loop. They are what such a local still holds when
`ToDouble` fails. -/
structure Uninitialised where
  hour : ℚ
  step : ℕ → ℚ

/-- The modal message dialogs of the file. -/
inductive MessageDialog where
  /-- The dialog "Invalid settings, nothing will be done." -/
  | InvalidSettings
  /-- The dialog "Zero Time Step invalid" -/
  | ZeroTimeStep
  /-- The dialog "Warning: less than 4 different degree steps specified" -/
  | LessThan4DegreeSteps
deriving DecidableEq

/-- The state of `WeatherRouting` the dialog acts on: the configuration of the
current route. -/
structure WeatherRouting where
  currentRoute : RouteMapConfiguration
deriving DecidableEq

/-- Modelled from the spec: `WeatherRouting::SetConfigurationCurrentRoute` is
defined in `WeatherRouting.cpp`, which is not among the sources at hand. The spec
describes it as replacing wholesale the single external cell that holds the
current configuration of the active route. -/
def WeatherRouting.SetConfigurationCurrentRoute (_wr : WeatherRouting)
    (configuration : RouteMapConfiguration) : WeatherRouting :=
  { currentRoute := configuration }

/-! ## GenerateDegreeSteps -/

/-- The loop `for(double v = from; v <= to; v+=by)` of `GenerateDegreeSteps`,
started at `v` with the list `steps`: each pass appends `v` and `-v` and adds
`by` to `v`, rounding to binary64. The test `v <= to` is false when `v` or `to`
is NaN. -/
def generateLoop : ℕ → Double → Double → Double → List ℚ → Option (List ℚ)
  | 0, _, _, _, _ => none
  | fuel + 1, Double.finite v, Double.finite to_, by_, steps =>
    if v ≤ to_ then
      generateLoop fuel ((Double.finite v).add by_) (Double.finite to_) by_ (steps ++ [v, -v])
    else some steps
  | _ + 1, _, _, _, steps => some steps

/-- The function `ConfigurationDialog::GenerateDegreeSteps`: the configuration
after the call and the dialogs shown. The arguments `from_`, `to_`, `by_` are the
contents of the locals `from`, `to`, `by` after the three calls of `ToDouble`
(lines 141 to 143): what the text controls parse to, or what the locals happened
to hold when a text does not parse. -/
def GenerateDegreeSteps (from_ to_ by_ : Double) (fuel : ℕ)
    (configuration : RouteMapConfiguration) :
    Option (RouteMapConfiguration × List MessageDialog) :=
  if from_.lt (Double.finite 0) || (Double.finite 180).le from_
      || to_.le (Double.finite 0) || (Double.finite 180).lt to_
      || to_.le from_
      || by_.le (Double.finite 0) || (Double.finite 180).le by_ then
    some (configuration, [MessageDialog.InvalidSettings])
  else
    match generateLoop fuel from_ to_ by_ [] with
    | none => none
    | some steps => some ({ configuration with DegreeSteps := sort steps }, [])

/-! ## SetConfiguration -/

/-- The function `ConfigurationDialog::SetConfiguration`: the widgets after the
call. -/
def SetConfiguration (_w : Widgets) (configuration : RouteMapConfiguration) : Widgets :=
  let dt := configuration.dt
  let hours := dt.tdiv 3600
  let dt1 := dt - hours * 3600
  let minutes := dt1.tdiv 60
  let dt2 := dt1 - minutes * 60
  { m_cStart := configuration.Start
    m_dpStartDate := configuration.StartTime
    m_tStartHour :=
      Format 2 (binary64 ((configuration.StartTime.hour : ℚ)
        + binary64 ((configuration.StartTime.minute : ℚ) / 60)))
    m_fpBoat := configuration.boatFileName
    m_sTimeStepHours := hours
    m_sTimeStepMinutes := minutes
    m_sTimeStepSeconds := dt2
    m_cEnd := configuration.End
    m_lDegreeSteps := configuration.DegreeSteps.map (Format 1)
    m_rbNewton := decide (configuration.Integrator = IntegratorType.NEWTON)
    m_rbRungeKutta := decide (configuration.Integrator = IntegratorType.RUNGE_KUTTA)
    m_sMaxDivertedCourse := configuration.MaxDivertedCourse
    m_sMaxSearchAngle := configuration.MaxSearchAngle
    m_sMaxWindKnots := configuration.MaxWindKnots
    m_sMaxSwellMeters := configuration.MaxSwellMeters
    m_sMaxLatitude := configuration.MaxLatitude
    m_sMaxTacks := configuration.MaxTacks
    m_sTackingTime := configuration.TackingTime
    m_cAvoidCycloneTracks := configuration.AvoidCycloneTracks
    m_sCycloneMonths := configuration.CycloneMonths
    m_sCycloneDays := configuration.CycloneDays
    m_sCycloneWindSpeed := configuration.CycloneWindSpeed
    m_sCycloneClimatologyStartYear := configuration.CycloneClimatologyStartYear
    m_cbDetectLand := configuration.DetectLand
    m_cbCurrents := configuration.Currents
    m_cbInvertedRegions := configuration.InvertedRegions
    m_cbAnchoring := configuration.Anchoring
    m_cbAllowDataDeficient := configuration.AllowDataDeficient
    m_cbUseGrib := configuration.UseGrib
    m_cClimatologyType := configuration.ClimatologyType }

/-! ## Configuration and Update -/

/-- The loop of `Configuration` over the entries of the list box, from entry
number `i` on: each entry is read with `ToDouble` into the fresh local `step`
and `positive_degrees(step)` is appended. -/
def readDegreeSteps (positive_degrees : ℚ → ℚ) (u : Uninitialised) : ℕ → List Text → List ℚ
  | _, [] => []
  | i, entry :: rest =>
    positive_degrees (entry.ToDouble (u.step i)).2
      :: readDegreeSteps positive_degrees u (i + 1) rest

/-- The function `ConfigurationDialog::Configuration`: the configuration it
returns and the dialogs shown on the way. The parameter `positive_degrees` is
the function of that name declared in `Utilities.h`. -/
def Configuration (positive_degrees : ℚ → ℚ) (w : Widgets) (u : Uninitialised) :
    RouteMapConfiguration × List MessageDialog :=
  let hour := (w.m_tStartHour.ToDouble u.hour).2
  let dt := 60 * (60 * w.m_sTimeStepHours + w.m_sTimeStepMinutes) + w.m_sTimeStepSeconds
  let zeroDialog := if dt = 0 then [MessageDialog.ZeroTimeStep] else []
  let countDialog :=
    if w.m_lDegreeSteps.length < 4 then [MessageDialog.LessThan4DegreeSteps] else []
  ({ Start := w.m_cStart
     StartTime :=
       { date := w.m_dpStartDate.date
         hour := toInt hour
         minute := (toInt (binary64 (60 * hour))).tmod 60 }
     boatFileName := w.m_fpBoat
     dt := dt
     End := w.m_cEnd
     DegreeSteps := sort (readDegreeSteps positive_degrees u 0 w.m_lDegreeSteps)
     Integrator :=
       if w.m_rbRungeKutta then IntegratorType.RUNGE_KUTTA else IntegratorType.NEWTON
     MaxDivertedCourse := w.m_sMaxDivertedCourse
     MaxSearchAngle := w.m_sMaxSearchAngle
     MaxWindKnots := w.m_sMaxWindKnots
     MaxSwellMeters := w.m_sMaxSwellMeters
     MaxLatitude := w.m_sMaxLatitude
     MaxTacks := w.m_sMaxTacks
     TackingTime := w.m_sTackingTime
     AvoidCycloneTracks := w.m_cAvoidCycloneTracks
     CycloneMonths := w.m_sCycloneMonths
     CycloneDays := w.m_sCycloneDays
     CycloneWindSpeed := w.m_sCycloneWindSpeed
     CycloneClimatologyStartYear := w.m_sCycloneClimatologyStartYear
     DetectLand := w.m_cbDetectLand
     Currents := w.m_cbCurrents
     InvertedRegions := w.m_cbInvertedRegions
     Anchoring := w.m_cbAnchoring
     AllowDataDeficient := w.m_cbAllowDataDeficient
     UseGrib := w.m_cbUseGrib
     ClimatologyType := w.m_cClimatologyType },
   zeroDialog ++ countDialog)

/-- The function `ConfigurationDialog::Update`: the state of `WeatherRouting`
after the call and the dialogs shown. -/
def Update (positive_degrees : ℚ → ℚ) (w : Widgets) (u : Uninitialised) (wr : WeatherRouting) :
    WeatherRouting × List MessageDialog :=
  ((wr.SetConfigurationCurrentRoute (Configuration positive_degrees w u).1),
    (Configuration positive_degrees w u).2)

/-- The value of `v` at the start of pass `k` of the loop of
`GenerateDegreeSteps` started at `v`, while no NaN is involved. -/
def visited (by_ v : ℚ) (k : ℕ) : ℚ :=
  (fun x => binary64 (x + by_))^[k] v

/-! ## What the spec says of the parts that are not in the sources -/

/-- Modelled from the spec: `positive_degrees` (`Utilities.h`) has no body among
the sources. The spec calls its result the canonical positive-degrees form, the
"normalization of an angle to a fixed reference range so equivalent headings
compare equal". Two headings a full turn apart are equivalent, so the function
gives them the same value; which reference range it uses is left open. -/
def EquivalentHeadingsCompareEqual (positive_degrees : ℚ → ℚ) : Prop :=
  ∀ degrees : ℚ, positive_degrees (degrees + 360) = positive_degrees degrees

/-- The list the whole-number range `from`, `to`, `by` stands for: the values
`from + k * by` and their negatives for `k = 0, 1, ...` while `from + k * by ≤
to`, arranged in ascending order. -/
def expectedDegreeSteps (from_ to_ by_ : ℚ) : List ℚ :=
  sort ((List.range (⌊(to_ - from_) / by_⌋₊ + 1)).flatMap
    fun k => [from_ + k * by_, -(from_ + k * by_)])

/-! ## Concrete values used in the examples -/

/-- A function with the property `EquivalentHeadingsCompareEqual`, used where an
example needs one: the representative of the angle modulo 360 in `[0, 360)`. -/
def wrap360 (degrees : ℚ) : ℚ :=
  degrees - 360 * ⌊degrees / 360⌋

/-- A configuration with time step one hour and no degree steps. -/
def sampleConfiguration : RouteMapConfiguration :=
  { Start := "A", StartTime := { date := 0, hour := 0, minute := 0 }, boatFileName := "boat.xml",
    dt := 3600, End := "B", DegreeSteps := [], Integrator := IntegratorType.NEWTON,
    MaxDivertedCourse := 180, MaxSearchAngle := 180, MaxWindKnots := 100, MaxSwellMeters := 20,
    MaxLatitude := 90, MaxTacks := -1, TackingTime := 0, AvoidCycloneTracks := false,
    CycloneMonths := 1, CycloneDays := 0, CycloneWindSpeed := 35,
    CycloneClimatologyStartYear := 1985, DetectLand := true, Currents := true,
    InvertedRegions := false, Anchoring := false, AllowDataDeficient := false, UseGrib := true,
    ClimatologyType := 0 }

/-- The widgets showing `sampleConfiguration`. -/
def sampleWidgets : Widgets :=
  { m_cStart := "A", m_dpStartDate := { date := 0, hour := 0, minute := 0 },
    m_tStartHour := Text.number 0, m_fpBoat := "boat.xml", m_sTimeStepHours := 1,
    m_sTimeStepMinutes := 0, m_sTimeStepSeconds := 0, m_cEnd := "B", m_lDegreeSteps := [],
    m_rbNewton := true, m_rbRungeKutta := false,
    m_sMaxDivertedCourse := 180, m_sMaxSearchAngle := 180, m_sMaxWindKnots := 100,
    m_sMaxSwellMeters := 20, m_sMaxLatitude := 90, m_sMaxTacks := -1, m_sTackingTime := 0,
    m_cAvoidCycloneTracks := false, m_sCycloneMonths := 1, m_sCycloneDays := 0,
    m_sCycloneWindSpeed := 35, m_sCycloneClimatologyStartYear := 1985, m_cbDetectLand := true,
    m_cbCurrents := true, m_cbInvertedRegions := false, m_cbAnchoring := false,
    m_cbAllowDataDeficient := false, m_cbUseGrib := true, m_cClimatologyType := 0 }

/-- Uninitialised locals that happen to hold zero. -/
def sampleUninitialised : Uninitialised :=
  { hour := 0, step := fun _ => 0 }

/-- The binary64 number nearest to `1e-17`. -/
def tinyStep : ℚ :=
  6490371073168535 / 2 ^ 109

/-- The widgets of `sampleWidgets` with the three spin controls of the time step
at zero. -/
def zeroStepWidgets : Widgets :=
  { sampleWidgets with m_sTimeStepHours := 0, m_sTimeStepMinutes := 0, m_sTimeStepSeconds := 0 }

/-- The widgets of `sampleWidgets` with five entries in the list box, the third
of which is no number. -/
def malformedWidgets : Widgets :=
  { sampleWidgets with
    m_lDegreeSteps := [Text.number 10, Text.number 20, Text.malformed "abc", Text.number 340,
      Text.number 350] }

/-- A configuration whose start time is two minutes past midnight. -/
def twoPastMidnight : RouteMapConfiguration :=
  { sampleConfiguration with StartTime := { date := 0, hour := 0, minute := 2 } }

/-- A configuration holding the degree steps 10 and 370, a full turn apart. -/
def fullTurnConfiguration : RouteMapConfiguration :=
  { sampleConfiguration with DegreeSteps := [10, 370] }

/-- A configuration holding the degree steps 10.1 (the binary64 number nearest
to it), 20 and 330. -/
def canonicalConfiguration : RouteMapConfiguration :=
  { sampleConfiguration with DegreeSteps := [binary64 (101 / 10), 20, 330] }

/-! ## Rounding -/

theorem roundHalfEven_eq_of_near (x : ℚ) (k : ℤ) (hlo : (k : ℚ) - 1 / 2 < x)
    (hhi : x < (k : ℚ) + 1 / 2) : roundHalfEven x = k := by
  rcases le_or_lt (k : ℚ) x with hk | hk
  · have hfloor : ⌊x⌋ = k := Int.floor_eq_iff.mpr ⟨hk, by linarith⟩
    have hfirst : 2 * (x - (k : ℚ)) < 1 := by linarith
    simp only [roundHalfEven, hfloor, if_pos hfirst]
  · have hfloor : ⌊x⌋ = k - 1 :=
      Int.floor_eq_iff.mpr ⟨by push_cast; linarith, by push_cast; linarith⟩
    have hfirst : ¬ 2 * (x - ((k - 1 : ℤ) : ℚ)) < 1 := by push_cast; linarith
    have hsecond : 1 < 2 * (x - ((k - 1 : ℤ) : ℚ)) := by push_cast; linarith
    simp only [roundHalfEven, hfloor, if_neg hfirst, if_pos hsecond]
    omega

theorem roundHalfEven_intCast (k : ℤ) : roundHalfEven (k : ℚ) = k :=
  roundHalfEven_eq_of_near _ k (by linarith) (by linarith)

theorem roundHalfEven_error (x : ℚ) : |(roundHalfEven x : ℚ) - x| ≤ 1 / 2 := by
  have hfloor := Int.floor_le x
  have hlt := Int.lt_floor_add_one x
  rw [abs_le]
  unfold roundHalfEven
  split_ifs with h1 h2 h3
  · constructor <;> linarith
  · constructor <;> push_cast <;> linarith
  · constructor <;> linarith
  · constructor <;> push_cast <;> linarith

theorem roundHalfEven_eq_zero {x : ℚ} (h0 : 0 ≤ x) (h1 : x ≤ 1 / 2) : roundHalfEven x = 0 := by
  have hfloor : ⌊x⌋ = 0 := Int.floor_eq_iff.mpr ⟨by simpa using h0, by norm_num; linarith⟩
  unfold roundHalfEven
  rw [hfloor]
  split_ifs with h2 h3 h4
  · rfl
  · exfalso; push_cast at h3; linarith
  · rfl
  · exfalso; exact h4 (by decide)

theorem roundHalfEven_nonneg {x : ℚ} (h0 : 0 ≤ x) : 0 ≤ roundHalfEven x := by
  have hfloor : 0 ≤ ⌊x⌋ := Int.floor_nonneg.mpr h0
  unfold roundHalfEven
  split_ifs <;> omega

theorem quantum_pos (x : ℚ) : 0 < quantum x := by
  unfold quantum
  positivity

theorem two_zpow_log_le {x : ℚ} (hx : x ≠ 0) : (2 : ℚ) ^ Int.log 2 |x| ≤ |x| := by
  have h := Int.zpow_log_le_self (b := 2) (r := |x|) (by norm_num) (abs_pos.mpr hx)
  simpa using h

theorem log_lt_of_abs_lt {x : ℚ} (hx : x ≠ 0) {E : ℤ} (h : |x| < 2 ^ E) : Int.log 2 |x| < E := by
  have h2 : |x| < ((2 : ℕ) : ℚ) ^ E := by simpa using h
  exact (Int.lt_zpow_iff_log_lt (b := 2) (by norm_num) (abs_pos.mpr hx)).mp h2

theorem le_log_of_le_abs {x : ℚ} (hx : x ≠ 0) {E : ℤ} (h : 2 ^ E ≤ |x|) : E ≤ Int.log 2 |x| := by
  have h2 : ((2 : ℕ) : ℚ) ^ E ≤ |x| := by simpa using h
  exact (Int.zpow_le_iff_le_log (b := 2) (by norm_num) (abs_pos.mpr hx)).mp h2

theorem binary64_zero : binary64 0 = 0 := by
  simp [binary64]

theorem binary64_error (x : ℚ) : |binary64 x - x| ≤ quantum x / 2 := by
  by_cases hx : x = 0
  · subst hx
    rw [binary64_zero, sub_self, abs_zero]
    exact (half_pos (quantum_pos 0)).le
  · have hq := quantum_pos x
    have hr := roundHalfEven_error (x / quantum x)
    rw [binary64, if_neg hx]
    have heq : (roundHalfEven (x / quantum x) : ℚ) * quantum x - x
        = ((roundHalfEven (x / quantum x) : ℚ) - x / quantum x) * quantum x := by
      field_simp
    rw [heq, abs_mul, abs_of_pos hq]
    calc |(roundHalfEven (x / quantum x) : ℚ) - x / quantum x| * quantum x
        ≤ 1 / 2 * quantum x := mul_le_mul_of_nonneg_right hr hq.le
      _ = quantum x / 2 := by ring

theorem quantum_le_of_abs_lt {x : ℚ} (hx : x ≠ 0) {E : ℤ} (hE : -1021 ≤ E) (h : |x| < 2 ^ E) :
    quantum x ≤ 2 ^ (E - 53) := by
  have hlog := log_lt_of_abs_lt hx h
  unfold quantum
  apply zpow_le_zpow_right₀ (by norm_num)
  have : max (Int.log 2 |x|) (-1022) ≤ E - 1 := max_le (by omega) (by omega)
  omega

theorem binary64_error_of_abs_lt {x : ℚ} {E : ℤ} (hE : -1021 ≤ E) (h : |x| < 2 ^ E) :
    |binary64 x - x| ≤ 2 ^ (E - 54) := by
  by_cases hx : x = 0
  · subst hx
    rw [binary64_zero]
    simp only [sub_self, abs_zero]
    positivity
  · have h1 := binary64_error x
    have h2 := quantum_le_of_abs_lt hx hE h
    have h3 : (2 : ℚ) ^ (E - 53) / 2 = 2 ^ (E - 54) := by
      rw [show E - 53 = (E - 54) + 1 by ring, zpow_add₀ (by norm_num), zpow_one]
      field_simp
    linarith

theorem binary64_nonneg {x : ℚ} (h0 : 0 ≤ x) : 0 ≤ binary64 x := by
  by_cases hx : x = 0
  · rw [hx, binary64_zero]
  · rw [binary64, if_neg hx]
    have hq := quantum_pos x
    have hr : (0 : ℚ) ≤ roundHalfEven (x / quantum x) :=
      Int.cast_nonneg.mpr (roundHalfEven_nonneg (div_nonneg h0 hq.le))
    exact mul_nonneg hr hq.le

theorem binary64_intCast (n : ℤ) (hn : |n| < 2 ^ 53) : binary64 (n : ℚ) = n := by
  by_cases h0 : n = 0
  · subst h0
    simpa using binary64_zero
  · have hx : (n : ℚ) ≠ 0 := Int.cast_ne_zero.mpr h0
    have habs : (1 : ℚ) ≤ |(n : ℚ)| := by
      rw [← Int.cast_abs]
      exact_mod_cast Int.one_le_abs h0
    have hlo : 0 ≤ Int.log 2 |(n : ℚ)| := le_log_of_le_abs hx (by simpa using habs)
    have hhi : Int.log 2 |(n : ℚ)| < 53 := by
      apply log_lt_of_abs_lt hx
      rw [← Int.cast_abs]
      exact_mod_cast hn
    obtain ⟨j, hj⟩ : ∃ j : ℕ, (j : ℤ) = 52 - Int.log 2 |(n : ℚ)| :=
      ⟨(52 - Int.log 2 |(n : ℚ)|).toNat, Int.toNat_of_nonneg (by omega)⟩
    have hq : quantum (n : ℚ) = ((2 : ℚ) ^ j)⁻¹ := by
      unfold quantum
      rw [max_eq_left (by omega), show Int.log 2 |(n : ℚ)| - 52 = -(j : ℤ) by omega,
        zpow_neg, zpow_natCast]
    have hscaled : (n : ℚ) / quantum (n : ℚ) = ((n * 2 ^ j : ℤ) : ℚ) := by
      rw [hq]
      push_cast
      field_simp
    rw [binary64, if_neg hx, hscaled, roundHalfEven_intCast, hq]
    push_cast
    field_simp

theorem binary64_eq_zero_of_le {x y : ℚ} (hx : 0 < x) (hxy : x ≤ y) (hy : binary64 y = 0) :
    binary64 x = 0 := by
  have hy0 : y ≠ 0 := (lt_of_lt_of_le hx hxy).ne'
  have hypos : 0 < y := lt_of_lt_of_le hx hxy
  have hqy := quantum_pos y
  rw [binary64, if_neg hy0] at hy
  have hround : (roundHalfEven (y / quantum y) : ℚ) = 0 := by
    rcases mul_eq_zero.mp hy with h | h
    · exact h
    · exact absurd h hqy.ne'
  have herr := roundHalfEven_error (y / quantum y)
  rw [hround, zero_sub, abs_neg, abs_of_nonneg (div_nonneg hypos.le hqy.le),
    div_le_iff₀ hqy] at herr
  have hlogy : Int.log 2 |y| < -1022 := by
    by_contra hge
    push_neg at hge
    have hpow := two_zpow_log_le hy0
    rw [abs_of_pos hypos] at hpow
    have hq : quantum y = 2 ^ (Int.log 2 |y| - 52) := by
      unfold quantum
      rw [max_eq_left hge]
    have hsmall : (2 : ℚ) ^ (Int.log 2 |y| - 52) ≤ 2 ^ (Int.log 2 |y|) / 2 := by
      rw [show Int.log 2 |y| = (Int.log 2 |y| - 52) + 52 by ring, zpow_add₀ (by norm_num)]
      have hp : (0 : ℚ) < 2 ^ (Int.log 2 |y| - 52 + 52 - 52) := by positivity
      simp only [add_sub_cancel_right]
      have hp' : (0 : ℚ) < 2 ^ (Int.log 2 |y| - 52) := by positivity
      have h52 : (2 : ℚ) ≤ 2 ^ (52 : ℤ) := by norm_num
      nlinarith
    rw [abs_of_pos hypos] at hq hsmall
    rw [hq] at herr
    have hp' : (0 : ℚ) < 2 ^ (Int.log 2 y - 52) := by positivity
    nlinarith
  have hqy' : quantum y = 2 ^ (-1074 : ℤ) := by
    unfold quantum
    rw [max_eq_right (by omega)]
    norm_num
  have hlogx : Int.log 2 |x| < -1022 := by
    have hmono := Int.log_mono_right (b := 2) hx hxy
    rw [abs_of_pos hx]
    rw [abs_of_pos hypos] at hlogy
    omega
  have hqx : quantum x = 2 ^ (-1074 : ℤ) := by
    unfold quantum
    rw [max_eq_right (by omega)]
    norm_num
  have hx0 : x ≠ 0 := hx.ne'
  rw [binary64, if_neg hx0, hqx]
  have hpos : (0 : ℚ) < 2 ^ (-1074 : ℤ) := by positivity
  have hzero : roundHalfEven (x / 2 ^ (-1074 : ℤ)) = 0 := by
    apply roundHalfEven_eq_zero (div_nonneg hx.le hpos.le)
    rw [div_le_iff₀ hpos]
    rw [hqy'] at herr
    linarith
  rw [hzero]
  simp

theorem binary64_of_log {x : ℚ} (hx : x ≠ 0) (e : ℤ) (he : -1022 ≤ e) (hlo : 2 ^ e ≤ |x|)
    (hhi : |x| < 2 ^ (e + 1)) :
    binary64 x = (roundHalfEven (x / 2 ^ (e - 52)) : ℚ) * 2 ^ (e - 52) := by
  have h1 := le_log_of_le_abs hx hlo
  have h2 := log_lt_of_abs_lt hx hhi
  have hlog : Int.log 2 |x| = e := by omega
  rw [binary64, if_neg hx, quantum, hlog, max_eq_left he]

theorem binary64_error_rel {x : ℚ} (hx : 2 ^ (-1022 : ℤ) ≤ |x|) :
    |binary64 x - x| ≤ |x| / 2 ^ 53 := by
  have hx0 : x ≠ 0 := by
    intro h
    rw [h, abs_zero] at hx
    have : (0 : ℚ) < 2 ^ (-1022 : ℤ) := by positivity
    linarith
  have hlog := le_log_of_le_abs hx0 hx
  have hpow := two_zpow_log_le hx0
  have herr := binary64_error x
  have hq : quantum x = 2 ^ Int.log 2 |x| / 2 ^ 52 := by
    unfold quantum
    rw [max_eq_left hlog, zpow_sub₀ (by norm_num)]
    norm_num
  rw [hq] at herr
  calc |binary64 x - x| ≤ 2 ^ Int.log 2 |x| / 2 ^ 52 / 2 := herr
    _ = 2 ^ Int.log 2 |x| / 2 ^ 53 := by ring
    _ ≤ |x| / 2 ^ 53 := by
        apply div_le_div_of_nonneg_right hpow
        positivity

/-! ## Shared lemmas -/

theorem toDouble_number (value val : ℚ) : ((Text.number value).ToDouble val).2 = value := rfl

theorem sort_sorted (l : List ℚ) : (sort l).Sorted (fun a b => a ≤ b) :=
  List.sorted_insertionSort (fun a b : ℚ => a ≤ b) l

theorem sort_perm (l : List ℚ) : (sort l).Perm l :=
  List.perm_insertionSort (fun a b : ℚ => a ≤ b) l

theorem mem_sort (l : List ℚ) (x : ℚ) : x ∈ sort l ↔ x ∈ l :=
  (sort_perm l).mem_iff

theorem length_sort (l : List ℚ) : (sort l).length = l.length :=
  (sort_perm l).length_eq

theorem sort_eq_self {l : List ℚ} (h : l.Sorted (fun a b => a ≤ b)) : sort l = l :=
  List.Sorted.insertionSort_eq h

theorem length_readDegreeSteps (positive_degrees : ℚ → ℚ) (u : Uninitialised)
    (entries : List Text) (i : ℕ) :
    (readDegreeSteps positive_degrees u i entries).length = entries.length := by
  induction entries generalizing i with
  | nil => rfl
  | cons entry rest ih => simp [readDegreeSteps, ih]

theorem readDegreeSteps_numbers (positive_degrees : ℚ → ℚ) (u : Uninitialised)
    (values : List ℚ) (i : ℕ) :
    readDegreeSteps positive_degrees u i (values.map Text.number)
      = values.map positive_degrees := by
  induction values generalizing i with
  | nil => rfl
  | cons value rest ih => simp [readDegreeSteps, ih, Text.ToDouble]

theorem update_currentRoute (positive_degrees : ℚ → ℚ) (w : Widgets) (u : Uninitialised)
    (wr : WeatherRouting) :
    (Update positive_degrees w u wr).1.currentRoute = (Configuration positive_degrees w u).1 :=
  rfl

theorem configuration_dt (positive_degrees : ℚ → ℚ) (w : Widgets) (u : Uninitialised) :
    (Configuration positive_degrees w u).1.dt =
      60 * (60 * w.m_sTimeStepHours + w.m_sTimeStepMinutes) + w.m_sTimeStepSeconds := rfl

theorem configuration_degreeSteps (positive_degrees : ℚ → ℚ) (w : Widgets)
    (u : Uninitialised) :
    (Configuration positive_degrees w u).1.DegreeSteps
      = sort (readDegreeSteps positive_degrees u 0 w.m_lDegreeSteps) := rfl

theorem configuration_dialogs (positive_degrees : ℚ → ℚ) (w : Widgets) (u : Uninitialised) :
    (Configuration positive_degrees w u).2 =
      (if 60 * (60 * w.m_sTimeStepHours + w.m_sTimeStepMinutes) + w.m_sTimeStepSeconds = 0
        then [MessageDialog.ZeroTimeStep] else []) ++
      (if w.m_lDegreeSteps.length < 4 then [MessageDialog.LessThan4DegreeSteps] else []) := rfl

/-! ## The loop of GenerateDegreeSteps -/

theorem generateLoop_finite_succ (fuel : ℕ) (v to_ by_ : ℚ) (steps : List ℚ) :
    generateLoop (fuel + 1) (Double.finite v) (Double.finite to_) (Double.finite by_) steps =
      if v ≤ to_ then
        generateLoop fuel (Double.finite (binary64 (v + by_))) (Double.finite to_)
          (Double.finite by_) (steps ++ [v, -v])
      else some steps := rfl

theorem visited_zero (by_ v : ℚ) : visited by_ v 0 = v := rfl

theorem visited_succ (by_ v : ℚ) (k : ℕ) :
    visited by_ v (k + 1) = visited by_ (binary64 (v + by_)) k := by
  simp only [visited, Function.iterate_succ_apply]

theorem visited_succ_right (by_ v : ℚ) (k : ℕ) :
    visited by_ v (k + 1) = binary64 (visited by_ v k + by_) := by
  simp only [visited, Function.iterate_succ_apply']

theorem flatMap_range_succ_visited (by_ v : ℚ) (n : ℕ) :
    (List.range (n + 1)).flatMap (fun k => [visited by_ v k, -visited by_ v k]) =
      [v, -v] ++ (List.range n).flatMap
        (fun k => [visited by_ (binary64 (v + by_)) k, -visited by_ (binary64 (v + by_)) k]) := by
  rw [List.range_succ_eq_map, List.flatMap_cons, List.flatMap_map]
  rfl

theorem generateLoop_of_visited (to_ by_ : ℚ) :
    ∀ (n : ℕ) (v : ℚ) (steps : List ℚ) (fuel : ℕ),
      (∀ k : ℕ, k < n → visited by_ v k ≤ to_) → to_ < visited by_ v n → n + 1 ≤ fuel →
      generateLoop fuel (Double.finite v) (Double.finite to_) (Double.finite by_) steps =
        some (steps ++ (List.range n).flatMap
          fun k => [visited by_ v k, -visited by_ v k]) := by
  intro n
  induction n with
  | zero =>
    intro v steps fuel _ hstop hfuel
    obtain ⟨fuel, rfl⟩ : ∃ f, fuel = f + 1 := ⟨fuel - 1, by omega⟩
    rw [visited_zero] at hstop
    rw [generateLoop_finite_succ, if_neg (not_le.mpr hstop)]
    simp
  | succ n ih =>
    intro v steps fuel hle hstop hfuel
    obtain ⟨fuel, rfl⟩ : ∃ f, fuel = f + 1 := ⟨fuel - 1, by omega⟩
    have hv : v ≤ to_ := hle 0 (Nat.succ_pos n)
    have hle' : ∀ k : ℕ, k < n → visited by_ (binary64 (v + by_)) k ≤ to_ := by
      intro k hk
      rw [← visited_succ]
      exact hle (k + 1) (Nat.succ_lt_succ hk)
    have hstop' : to_ < visited by_ (binary64 (v + by_)) n := by
      rw [← visited_succ]
      exact hstop
    rw [generateLoop_finite_succ, if_pos hv,
      ih (binary64 (v + by_)) (steps ++ [v, -v]) fuel hle' hstop' (by omega),
      flatMap_range_succ_visited, List.append_assoc]

theorem generateLoop_some (to_ by_ : ℚ) :
    ∀ (fuel : ℕ) (v : ℚ) (steps out : List ℚ),
      generateLoop fuel (Double.finite v) (Double.finite to_) (Double.finite by_) steps
        = some out →
      ∃ n : ℕ, n < fuel ∧ (∀ k : ℕ, k < n → visited by_ v k ≤ to_) ∧
        to_ < visited by_ v n ∧
        out = steps ++ (List.range n).flatMap fun k => [visited by_ v k, -visited by_ v k] := by
  intro fuel
  induction fuel with
  | zero =>
    intro v steps out h
    simp [generateLoop] at h
  | succ fuel ih =>
    intro v steps out h
    rw [generateLoop_finite_succ] at h
    by_cases hv : v ≤ to_
    · rw [if_pos hv] at h
      obtain ⟨n, hn, hle, hstop, hout⟩ := ih (binary64 (v + by_)) (steps ++ [v, -v]) out h
      refine ⟨n + 1, by omega, ?_, ?_, ?_⟩
      · intro k hk
        cases k with
        | zero => exact hv
        | succ k =>
          rw [visited_succ]
          exact hle k (by omega)
      · rw [visited_succ]
        exact hstop
      · rw [hout, flatMap_range_succ_visited, List.append_assoc]
    · rw [if_neg hv] at h
      refine ⟨0, by omega, ?_, ?_, ?_⟩
      · intro k hk
        omega
      · rw [visited_zero]
        exact not_le.mp hv
      · simp only [Option.some.injEq] at h
        simp [← h]

/-! ## GenerateDegreeSteps: the guard -/

theorem generateDegreeSteps_rejects (from_ to_ by_ : ℚ) (fuel : ℕ)
    (configuration : RouteMapConfiguration)
    (hviolated : ¬ (0 ≤ from_ ∧ from_ < 180 ∧ 0 < to_ ∧ to_ ≤ 180 ∧ from_ < to_ ∧
      0 < by_ ∧ by_ < 180)) :
    GenerateDegreeSteps (Double.finite from_) (Double.finite to_) (Double.finite by_) fuel
        configuration =
      some (configuration, [MessageDialog.InvalidSettings]) := by
  have hguard : (from_ < 0 ∨ 180 ≤ from_ ∨ to_ ≤ 0 ∨ 180 < to_ ∨ to_ ≤ from_ ∨
      by_ ≤ 0 ∨ 180 ≤ by_) := by
    by_contra hno
    simp only [not_or, not_lt, not_le] at hno
    exact hviolated ⟨hno.1, hno.2.1, hno.2.2.1, hno.2.2.2.1, hno.2.2.2.2.1,
      hno.2.2.2.2.2.1, hno.2.2.2.2.2.2⟩
  have hbool : ((Double.finite from_).lt (Double.finite 0)
      || (Double.finite 180).le (Double.finite from_)
      || (Double.finite to_).le (Double.finite 0) || (Double.finite 180).lt (Double.finite to_)
      || (Double.finite to_).le (Double.finite from_)
      || (Double.finite by_).le (Double.finite 0) || (Double.finite 180).le (Double.finite by_))
      = true := by
    simp only [Double.lt, Double.le, Bool.or_eq_true, decide_eq_true_eq]
    tauto
  rw [GenerateDegreeSteps, if_pos hbool]

theorem generateDegreeSteps_accepts (from_ to_ by_ : ℚ) (fuel : ℕ)
    (configuration : RouteMapConfiguration)
    (h1 : 0 ≤ from_) (h2 : from_ < 180) (h3 : 0 < to_) (h4 : to_ ≤ 180) (h5 : from_ < to_)
    (h6 : 0 < by_) (h7 : by_ < 180) :
    GenerateDegreeSteps (Double.finite from_) (Double.finite to_) (Double.finite by_) fuel
        configuration =
      match generateLoop fuel (Double.finite from_) (Double.finite to_) (Double.finite by_) []
        with
      | none => none
      | some steps => some ({ configuration with DegreeSteps := sort steps }, []) := by
  have hbool : ¬ ((Double.finite from_).lt (Double.finite 0)
      || (Double.finite 180).le (Double.finite from_)
      || (Double.finite to_).le (Double.finite 0) || (Double.finite 180).lt (Double.finite to_)
      || (Double.finite to_).le (Double.finite from_)
      || (Double.finite by_).le (Double.finite 0) || (Double.finite 180).le (Double.finite by_))
      = true := by
    simp only [Double.lt, Double.le, Bool.or_eq_true, decide_eq_true_eq, not_or, not_lt, not_le]
    exact ⟨⟨⟨⟨⟨⟨h1, h2⟩, h3⟩, h4⟩, h5⟩, h6⟩, h7⟩
  rw [GenerateDegreeSteps, if_neg hbool]

/-- C1 fails on the code at `from` = NaN, `to` = 30, `by` = 10, which violates
`0 ≤ from < 180`: every comparison of the guard is false, no dialog is shown,
the list `[-5, 5]` the configuration held is cleared, the loop makes no pass
(`v <= to` is false) and the configuration is returned with an empty list, not
as it was. -/
theorem generateDegreeSteps_nan_not_rejected :
    GenerateDegreeSteps Double.nan (Double.finite 30) (Double.finite 10) 1
        { sampleConfiguration with DegreeSteps := [-5, 5] } =
      some ({ sampleConfiguration with DegreeSteps := [] }, []) ∧
    GenerateDegreeSteps Double.nan (Double.finite 30) (Double.finite 10) 1
        { sampleConfiguration with DegreeSteps := [-5, 5] } ≠
      some ({ sampleConfiguration with DegreeSteps := [-5, 5] },
        [MessageDialog.InvalidSettings]) := by
  have hrun : GenerateDegreeSteps Double.nan (Double.finite 30) (Double.finite 10) 1
        { sampleConfiguration with DegreeSteps := [-5, 5] } =
      some ({ sampleConfiguration with DegreeSteps := [] }, []) := by
    norm_num [GenerateDegreeSteps, Double.lt, Double.le, generateLoop, sort]
  refine ⟨hrun, ?_⟩
  rw [hrun]
  intro h
  simp at h

/-! ## GenerateDegreeSteps: a step too small to change v -/

theorem binary64_tinyStep : binary64 (1 / 10 ^ 17) = tinyStep := by
  have hx : (1 : ℚ) / 10 ^ 17 ≠ 0 := by norm_num
  rw [binary64_of_log hx (-57) (by norm_num) (by rw [abs_of_pos (by norm_num)]; norm_num)
    (by rw [abs_of_pos (by norm_num)]; norm_num)]
  rw [roundHalfEven_eq_of_near _ 6490371073168535 (by norm_num) (by norm_num)]
  norm_num [tinyStep]

theorem binary64_one_add_tinyStep : binary64 (1 + tinyStep) = 1 := by
  have hx : (1 : ℚ) + tinyStep ≠ 0 := by norm_num [tinyStep]
  rw [binary64_of_log hx 0 (by norm_num)
    (by rw [abs_of_pos (by norm_num [tinyStep])]; norm_num [tinyStep])
    (by rw [abs_of_pos (by norm_num [tinyStep])]; norm_num [tinyStep])]
  rw [roundHalfEven_eq_of_near _ (2 ^ 52) (by norm_num [tinyStep]) (by norm_num [tinyStep])]
  norm_num

theorem generateLoop_stalls (fuel : ℕ) (steps : List ℚ) :
    generateLoop fuel (Double.finite 1) (Double.finite 2) (Double.finite tinyStep) steps
      = none := by
  induction fuel generalizing steps with
  | zero => rfl
  | succ fuel ih =>
    rw [generateLoop_finite_succ, if_pos (by norm_num), binary64_one_add_tinyStep]
    exact ih _

/-- C2 fails on the code at `from = 1`, `to = 2`, `by = 1e-17`, a valid range.
The binary64 number nearest to `1e-17` is `tinyStep`, and `1.0 + tinyStep`
rounds to `1.0`: `v += by` leaves `v` at 1, every pass appends 1 and -1, and for
no amount of fuel does the call return. -/
theorem generateDegreeSteps_never_returns :
    binary64 (1 / 10 ^ 17) = tinyStep ∧
    binary64 (1 + tinyStep) = 1 ∧
    ∀ (fuel : ℕ) (configuration : RouteMapConfiguration),
      GenerateDegreeSteps (Double.finite 1) (Double.finite 2) (Double.finite tinyStep) fuel
        configuration = none := by
  refine ⟨binary64_tinyStep, binary64_one_add_tinyStep, ?_⟩
  intro fuel configuration
  rw [generateDegreeSteps_accepts 1 2 tinyStep fuel configuration (by norm_num) (by norm_num)
    (by norm_num) (by norm_num) (by norm_num) (by norm_num [tinyStep]) (by norm_num [tinyStep]),
    generateLoop_stalls]

/-! ## GenerateDegreeSteps: the values the loop visits -/

theorem visited_add (by_ v : ℚ) (i t : ℕ) :
    visited by_ v (t + i) = visited by_ (visited by_ v i) t := by
  simp only [visited, Function.iterate_add_apply]

theorem visited_nonneg (by_ v : ℚ) (hv : 0 ≤ v) (hby : 0 ≤ by_) (k : ℕ) :
    0 ≤ visited by_ v k := by
  induction k with
  | zero => exact hv
  | succ k ih =>
    rw [visited_succ_right]
    exact binary64_nonneg (add_nonneg ih hby)

theorem visited_le_of_repeat (to_ by_ v : ℚ) (n i j : ℕ) (hij : i < j) (hj : j < n)
    (hle : ∀ k : ℕ, k < n → visited by_ v k ≤ to_)
    (heq : visited by_ v i = visited by_ v j) (t : ℕ) : visited by_ v t ≤ to_ := by
  induction t using Nat.strong_induction_on with
  | _ t ih =>
    by_cases ht : t < n
    · exact hle t ht
    · have hsplit : visited by_ v t = visited by_ v ((t - j) + i) := by
        conv_lhs => rw [show t = (t - j) + j by omega]
        rw [visited_add, visited_add, heq]
      rw [hsplit]
      exact ih _ (by omega)

theorem visited_distinct (to_ by_ v : ℚ) (n i j : ℕ) (hij : i < j) (hj : j < n)
    (hle : ∀ k : ℕ, k < n → visited by_ v k ≤ to_) (hstop : to_ < visited by_ v n) :
    visited by_ v i ≠ visited by_ v j := by
  intro heq
  have hall := visited_le_of_repeat to_ by_ v n i j hij hj hle heq n
  exact absurd hstop (not_lt.mpr hall)

theorem visited_ne_zero (to_ by_ v : ℚ) (n k : ℕ) (hv : 0 ≤ v) (hby : 0 < by_) (hto : 0 < to_)
    (hk : k + 1 ≤ n) (hstop : to_ < visited by_ v n) : visited by_ v (k + 1) ≠ 0 := by
  intro hzero
  have hround : binary64 by_ = 0 := by
    have hsum : binary64 (visited by_ v k + by_) = 0 := by
      rw [← visited_succ_right]
      exact hzero
    exact binary64_eq_zero_of_le hby
      (le_add_of_nonneg_left (visited_nonneg by_ v hv hby.le k)) hsum
  have hstay : ∀ t : ℕ, visited by_ v (k + 1 + t) = 0 := by
    intro t
    induction t with
    | zero => exact hzero
    | succ t ih =>
      rw [show k + 1 + (t + 1) = (k + 1 + t) + 1 by omega, visited_succ_right, ih, zero_add]
      exact hround
  have hn := hstay (n - (k + 1))
  rw [show k + 1 + (n - (k + 1)) = n by omega] at hn
  rw [hn] at hstop
  exact absurd hstop (not_lt.mpr hto.le)

theorem nodup_flatMap_pm (a : ℕ → ℚ) (n : ℕ) (hpos : ∀ k : ℕ, k < n → 0 < a k)
    (hdistinct : ∀ i j : ℕ, i < j → j < n → a i ≠ a j) :
    ((List.range n).flatMap fun k => [a k, -a k]).Nodup := by
  rw [List.nodup_flatMap]
  constructor
  · intro k hk
    have hk' := hpos k (List.mem_range.mp hk)
    simp only [List.nodup_cons, List.mem_singleton, List.not_mem_nil, not_false_eq_true,
      List.nodup_nil, and_true]
    intro heq
    linarith
  · refine (List.pairwise_lt_range n).imp_of_mem ?_
    intro i j hi hj hij
    have hi' := hpos i (List.mem_range.mp hi)
    have hj' := hpos j (List.mem_range.mp hj)
    have hne := hdistinct i j hij (List.mem_range.mp hj)
    simp only [Function.onFun, List.disjoint_left, List.mem_cons, List.mem_singleton,
      List.not_mem_nil, or_false]
    rintro x (rfl | rfl) (h | h)
    · exact hne h
    · linarith
    · linarith
    · exact hne (neg_injective h)

theorem count_zero_flatMap_pm (a : ℕ → ℚ) (n : ℕ) (hzero : a 0 = 0)
    (hne : ∀ k : ℕ, k + 1 < n + 1 → a (k + 1) ≠ 0) :
    ((List.range (n + 1)).flatMap fun k => [a k, -a k]).count 0 = 2 := by
  rw [List.range_succ_eq_map, List.flatMap_cons, List.count_append, hzero]
  have hrest : (0 : ℚ) ∉ (List.map Nat.succ (List.range n)).flatMap fun k => [a k, -a k] := by
    rw [List.mem_flatMap]
    rintro ⟨k, hk, hmem⟩
    rw [List.mem_map] at hk
    obtain ⟨i, hi, rfl⟩ := hk
    have hi' := hne i (by have := List.mem_range.mp hi; omega)
    simp only [List.mem_cons, List.mem_singleton, List.not_mem_nil, or_false] at hmem
    rcases hmem with h | h
    · exact hi' h.symm
    · exact hi' (neg_eq_zero.mp h.symm)
  rw [List.count_eq_zero_of_not_mem hrest]
  simp

theorem visited_whole (a b : ℤ) (hb : 0 ≤ b) (ha : 0 ≤ a) (k : ℕ) (hk : a + k * b < 2 ^ 53) :
    visited (b : ℚ) (a : ℚ) k = ((a + k * b : ℤ) : ℚ) := by
  induction k with
  | zero => simp [visited_zero]
  | succ k ih =>
    have hmono : a + k * b ≤ a + (k + 1 : ℕ) * b := by
      push_cast
      nlinarith
    rw [visited_succ_right, ih (lt_of_le_of_lt hmono hk)]
    have hnonneg : 0 ≤ a + (k + 1 : ℕ) * b := by positivity
    have hcast : ((a + k * b : ℤ) : ℚ) + (b : ℚ) = ((a + (k + 1 : ℕ) * b : ℤ) : ℚ) := by
      push_cast
      ring
    rw [hcast]
    exact binary64_intCast _ (by rw [abs_of_nonneg hnonneg]; exact hk)

theorem le_floor_iff_step (from_ to_ by_ : ℚ) (hlt : from_ < to_) (hby : 0 < by_) (k : ℕ) :
    k ≤ ⌊(to_ - from_) / by_⌋₊ ↔ from_ + k * by_ ≤ to_ := by
  have hnonneg : 0 ≤ (to_ - from_) / by_ := div_nonneg (by linarith) hby.le
  rw [Nat.le_floor_iff hnonneg, le_div_iff₀ hby]
  constructor <;> intro h <;> linarith

theorem expectedDegreeSteps_example :
    expectedDegreeSteps 10 30 10 = [-30, -20, -10, 10, 20, 30] := by
  have hfloor : ⌊((30 : ℚ) - 10) / 10⌋₊ = 2 := by
    norm_num
  rw [expectedDegreeSteps, hfloor]
  simp [List.range_succ, sort]
  norm_num

theorem generateDegreeSteps_whole (a b : ℤ) (to_ : ℚ) (configuration : RouteMapConfiguration)
    (h1 : 0 ≤ (a : ℚ)) (h2 : (a : ℚ) < 180) (h3 : 0 < to_) (h4 : to_ ≤ 180)
    (h5 : (a : ℚ) < to_) (h6 : 0 < (b : ℚ)) (h7 : (b : ℚ) < 180) (fuel : ℕ)
    (hfuel : ⌊(to_ - a) / b⌋₊ + 2 ≤ fuel) :
    GenerateDegreeSteps (Double.finite a) (Double.finite to_) (Double.finite b) fuel
        configuration =
      some ({ configuration with DegreeSteps := expectedDegreeSteps a to_ b }, []) := by
  have ha : 0 ≤ a := by exact_mod_cast h1
  have hb : 0 ≤ b := by exact_mod_cast h6.le
  have hvisited : ∀ k : ℕ, k ≤ ⌊(to_ - a) / b⌋₊ + 1 →
      visited (b : ℚ) (a : ℚ) k = (a : ℚ) + k * b := by
    intro k hk
    have hbound : (((a + k * b : ℤ)) : ℚ) < 2 ^ 53 := by
      push_cast
      rcases Nat.eq_zero_or_pos k with h0 | hpos
      · subst h0
        norm_num
        linarith
      · have hprev := (le_floor_iff_step a to_ b h5 h6 (k - 1)).mp (by omega)
        have hcast : ((k - 1 : ℕ) : ℚ) = (k : ℚ) - 1 := by
          rw [Nat.cast_sub hpos, Nat.cast_one]
        rw [hcast] at hprev
        have : (a : ℚ) + k * b ≤ to_ + b := by linarith
        have h53 : (360 : ℚ) < 2 ^ 53 := by norm_num
        linarith
    rw [visited_whole a b hb ha k (by exact_mod_cast hbound)]
    push_cast
    ring
  have hloop := generateLoop_of_visited to_ (b : ℚ) (⌊(to_ - a) / b⌋₊ + 1) (a : ℚ) [] fuel
    (by
      intro k hk
      rw [hvisited k (by omega)]
      exact (le_floor_iff_step a to_ b h5 h6 k).mp (by omega))
    (by
      rw [hvisited _ le_rfl]
      have hnot : ¬ (⌊(to_ - a) / b⌋₊ + 1 ≤ ⌊(to_ - a) / b⌋₊) := by omega
      rw [le_floor_iff_step a to_ b h5 h6] at hnot
      exact not_le.mp hnot)
    (by omega)
  have hlist : ((List.range (⌊(to_ - a) / b⌋₊ + 1)).flatMap
      fun k => [visited (b : ℚ) (a : ℚ) k, -visited (b : ℚ) (a : ℚ) k]) =
      (List.range (⌊(to_ - a) / b⌋₊ + 1)).flatMap
        fun k => [(a : ℚ) + k * b, -((a : ℚ) + k * b)] := by
    apply List.flatMap_congr
    intro k hk
    rw [hvisited k (by have := List.mem_range.mp hk; omega)]
  rw [generateDegreeSteps_accepts a to_ b fuel configuration h1 h2 h3 h4 h5 h6 h7, hloop,
    List.nil_append, hlist]
  rfl

theorem generateDegreeSteps_result (from_ to_ by_ : ℚ) (configuration : RouteMapConfiguration)
    (h1 : 0 ≤ from_) (h2 : from_ < 180) (h3 : 0 < to_) (h4 : to_ ≤ 180) (h5 : from_ < to_)
    (h6 : 0 < by_) (h7 : by_ < 180) (fuel : ℕ) (result : RouteMapConfiguration)
    (dialogs : List MessageDialog)
    (hrun : GenerateDegreeSteps (Double.finite from_) (Double.finite to_) (Double.finite by_)
      fuel configuration = some (result, dialogs)) :
    ∃ n : ℕ, n < fuel ∧ (∀ k : ℕ, k < n → visited by_ from_ k ≤ to_) ∧
      to_ < visited by_ from_ n ∧
      result.DegreeSteps = sort ((List.range n).flatMap
        fun k => [visited by_ from_ k, -visited by_ from_ k]) ∧
      dialogs = [] := by
  rw [generateDegreeSteps_accepts from_ to_ by_ fuel configuration h1 h2 h3 h4 h5 h6 h7] at hrun
  cases hloop : generateLoop fuel (Double.finite from_) (Double.finite to_)
      (Double.finite by_) [] with
  | none =>
    rw [hloop] at hrun
    simp at hrun
  | some steps =>
    rw [hloop] at hrun
    simp only [Option.some.injEq, Prod.mk.injEq] at hrun
    obtain ⟨n, hn, hle, hstop, hout⟩ := generateLoop_some to_ by_ fuel from_ [] steps hloop
    refine ⟨n, hn, hle, hstop, ?_, hrun.2.symm⟩
    rw [← hrun.1, hout, List.nil_append]

/-- C3 fails on the code. For the valid range 0, 10, 10 the loop appends `0` and
`-0` in its first pass and the list is `[-10, 0, 0, 10]`, which holds `0`
twice. -/
theorem generateDegreeSteps_duplicate_counterexample :
    GenerateDegreeSteps (Double.finite 0) (Double.finite 10) (Double.finite 10) 3
        sampleConfiguration =
      some ({ sampleConfiguration with DegreeSteps := [-10, 0, 0, 10] }, []) ∧
    ¬ ([-10, 0, 0, 10] : List ℚ).Nodup := by
  constructor
  · have hrun := generateDegreeSteps_whole 0 10 10 sampleConfiguration (by norm_num)
      (by norm_num) (by norm_num) (by norm_num) (by norm_num) (by norm_num) (by norm_num) 3
      (by norm_num)
    have hlist : expectedDegreeSteps ((0 : ℤ) : ℚ) 10 ((10 : ℤ) : ℚ) = [-10, 0, 0, 10] := by
      have hfloor : ⌊((10 : ℚ) - ((0 : ℤ) : ℚ)) / ((10 : ℤ) : ℚ)⌋₊ = 1 := by
        norm_num
      rw [expectedDegreeSteps, hfloor]
      simp [List.range_succ, sort]
    rw [hlist] at hrun
    exact_mod_cast hrun
  · simp

/-- C3 as amended. For a valid range, whenever `GenerateDegreeSteps` returns,
the degree steps it produced hold no value twice when `0 < from`, and hold the
value `0` exactly twice when `from = 0`. It returns, with the expected list, for
every valid range whose `from` and `by` are whole numbers, once the fuel covers
the passes of the loop. -/
theorem generateDegreeSteps_nodup (from_ to_ by_ : ℚ) (configuration : RouteMapConfiguration)
    (h1 : 0 ≤ from_) (h2 : from_ < 180) (h3 : 0 < to_) (h4 : to_ ≤ 180) (h5 : from_ < to_)
    (h6 : 0 < by_) (h7 : by_ < 180) :
    (∀ (fuel : ℕ) (result : RouteMapConfiguration) (dialogs : List MessageDialog),
      GenerateDegreeSteps (Double.finite from_) (Double.finite to_) (Double.finite by_) fuel
        configuration = some (result, dialogs) →
      (0 < from_ → result.DegreeSteps.Nodup) ∧
      (from_ = 0 → result.DegreeSteps.count 0 = 2)) ∧
    (∀ a b : ℤ, from_ = a → by_ = b → ∀ fuel : ℕ, ⌊(to_ - from_) / by_⌋₊ + 2 ≤ fuel →
      GenerateDegreeSteps (Double.finite from_) (Double.finite to_) (Double.finite by_) fuel
        configuration =
      some ({ configuration with DegreeSteps := expectedDegreeSteps from_ to_ by_ }, [])) := by
  constructor
  · intro fuel result dialogs hrun
    obtain ⟨n, _, hle, hstop, hsteps, _⟩ := generateDegreeSteps_result from_ to_ by_
      configuration h1 h2 h3 h4 h5 h6 h7 fuel result dialogs hrun
    have hdistinct : ∀ i j : ℕ, i < j → j < n → visited by_ from_ i ≠ visited by_ from_ j :=
      fun i j hij hj => visited_distinct to_ by_ from_ n i j hij hj hle hstop
    have hne : ∀ k : ℕ, k + 1 ≤ n → visited by_ from_ (k + 1) ≠ 0 :=
      fun k hk => visited_ne_zero to_ by_ from_ n k h1 h6 h3 hk hstop
    constructor
    · intro hpos
      rw [hsteps, (sort_perm _).nodup_iff]
      apply nodup_flatMap_pm _ n _ hdistinct
      intro k hk
      cases k with
      | zero => exact hpos
      | succ k =>
        exact lt_of_le_of_ne (visited_nonneg by_ from_ h1 h6.le (k + 1))
          (hne k (by omega)).symm
    · intro hzero
      have hn : n ≠ 0 := by
        intro h0
        rw [h0, visited_zero, hzero] at hstop
        exact absurd hstop (not_lt.mpr h3.le)
      obtain ⟨m, rfl⟩ : ∃ m, n = m + 1 := ⟨n - 1, by omega⟩
      rw [hsteps, (sort_perm _).count_eq]
      apply count_zero_flatMap_pm
      · rw [visited_zero, hzero]
      · intro k hk
        exact hne k (by omega)
  · intro a b ha hb fuel hfuel
    subst ha hb
    exact generateDegreeSteps_whole a b to_ configuration h1 h2 h3 h4 h5 h6 h7 fuel hfuel

/-- C3 as amended, at the range 10, 30, 10 with fuel 4: the call returns
`[-30, -20, -10, 10, 20, 30]`, which holds no value twice. -/
theorem generateDegreeSteps_nodup_witness :
    GenerateDegreeSteps (Double.finite 10) (Double.finite 30) (Double.finite 10) 4
        sampleConfiguration =
      some ({ sampleConfiguration with DegreeSteps := [-30, -20, -10, 10, 20, 30] }, []) ∧
    ([-30, -20, -10, 10, 20, 30] : List ℚ).Nodup := by
  have h := generateDegreeSteps_nodup 10 30 10 sampleConfiguration (by norm_num) (by norm_num)
    (by norm_num) (by norm_num) (by norm_num) (by norm_num) (by norm_num)
  have hrun := h.2 10 10 (by norm_num) (by norm_num) 4 (by norm_num)
  rw [expectedDegreeSteps_example] at hrun
  exact ⟨hrun, (h.1 4 _ _ hrun).1 (by norm_num)⟩

/-! ## The start hour through its two-decimal text -/

theorem toInt_of_nonneg {x : ℚ} (hx : 0 ≤ x) : toInt x = ⌊x⌋ := by
  simp only [toInt, if_pos hx]

theorem startHour_double_error (h m : ℤ) (hh0 : 0 ≤ h) (hh1 : h < 24) (hm0 : 0 ≤ m)
    (hm1 : m < 60) :
    |binary64 ((h : ℚ) + binary64 ((m : ℚ) / 60)) - ((h : ℚ) + (m : ℚ) / 60)| ≤ 1 / 10 ^ 14 := by
  have hhq0 : (0 : ℚ) ≤ h := by exact_mod_cast hh0
  have hhq1 : (h : ℚ) ≤ 23 := by exact_mod_cast (show h ≤ 23 by omega)
  have hmq0 : (0 : ℚ) ≤ m := by exact_mod_cast hm0
  have hmq1 : (m : ℚ) ≤ 59 := by exact_mod_cast (show m ≤ 59 by omega)
  have hfrac0 : (0 : ℚ) ≤ (m : ℚ) / 60 := by positivity
  have hfrac1 : (m : ℚ) / 60 < 1 := by
    rw [div_lt_one (by norm_num)]
    linarith
  have herr1 := binary64_error_of_abs_lt (x := (m : ℚ) / 60) (E := 0) (by norm_num)
    (by rw [abs_of_nonneg hfrac0]; simpa using hfrac1)
  have hd0 := binary64_nonneg hfrac0
  have hpow1 : (2 : ℚ) ^ ((0 : ℤ) - 54) ≤ 1 / 10 ^ 15 := by norm_num
  have hd1 : binary64 ((m : ℚ) / 60) ≤ 2 := by
    have := (abs_le.mp herr1).2
    linarith
  have hsum0 : 0 ≤ (h : ℚ) + binary64 ((m : ℚ) / 60) := by positivity
  have herr2 := binary64_error_of_abs_lt (x := (h : ℚ) + binary64 ((m : ℚ) / 60)) (E := 5)
    (by norm_num) (by rw [abs_of_nonneg hsum0]; norm_num; linarith)
  have hpow2 : (2 : ℚ) ^ ((5 : ℤ) - 54) ≤ 1 / 10 ^ 15 + 1 / 10 ^ 15 := by norm_num
  have ha := abs_le.mp herr1
  have hb := abs_le.mp herr2
  rw [abs_le]
  constructor <;> norm_num at * <;> linarith

theorem startHour_text (h m q c : ℤ) (hh0 : 0 ≤ h) (hh1 : h < 24) (hm0 : 0 ≤ m) (hm1 : m < 60)
    (hlo : (5 * (q : ℚ) + c) - 1 / 3 ≤ 5 * m / 3) (hhi : 5 * (m : ℚ) / 3 ≤ (5 * q + c) + 1 / 3) :
    Format 2 (binary64 ((h : ℚ) + binary64 ((m : ℚ) / 60)))
      = Text.number (binary64 (((100 * h + 5 * q + c : ℤ) : ℚ) / 100)) := by
  have herr := abs_le.mp (startHour_double_error h m hh0 hh1 hm0 hm1)
  have hround : roundHalfEven (binary64 ((h : ℚ) + binary64 ((m : ℚ) / 60)) * 10 ^ 2)
      = 100 * h + 5 * q + c := by
    apply roundHalfEven_eq_of_near
    · push_cast
      norm_num at herr ⊢
      linarith
    · push_cast
      norm_num at herr ⊢
      linarith
  simp only [Format, hround]
  norm_num

theorem hundredths_error (k : ℤ) (hk0 : 0 ≤ k) (hk1 : k < 2400) :
    0 ≤ binary64 ((k : ℚ) / 100) ∧
    |binary64 ((k : ℚ) / 100) - (k : ℚ) / 100| ≤ 1 / 10 ^ 14 ∧
    0 ≤ binary64 (60 * binary64 ((k : ℚ) / 100)) ∧
    |binary64 (60 * binary64 ((k : ℚ) / 100)) - 3 * (k : ℚ) / 5| ≤ 1 / 10 ^ 11 := by
  have hq0 : (0 : ℚ) ≤ k := by exact_mod_cast hk0
  have hq1 : (k : ℚ) < 2400 := by exact_mod_cast hk1
  have hr0 : (0 : ℚ) ≤ (k : ℚ) / 100 := by positivity
  have hy0 := binary64_nonneg hr0
  have herr1 := binary64_error_of_abs_lt (x := (k : ℚ) / 100) (E := 5) (by norm_num)
    (by rw [abs_of_nonneg hr0, div_lt_iff₀ (by norm_num)]; norm_num; linarith)
  have hpow1 : (2 : ℚ) ^ ((5 : ℤ) - 54) ≤ 1 / 10 ^ 14 := by norm_num
  have he1 := abs_le.mp herr1
  have hprod0 : (0 : ℚ) ≤ 60 * binary64 ((k : ℚ) / 100) := by positivity
  have hp0 := binary64_nonneg hprod0
  have herr2 := binary64_error_of_abs_lt (x := 60 * binary64 ((k : ℚ) / 100)) (E := 11)
    (by norm_num) (by rw [abs_of_nonneg hprod0]; norm_num; linarith)
  have hpow2 : (2 : ℚ) ^ ((11 : ℤ) - 54) ≤ 1 / 10 ^ 12 := by norm_num
  have he2 := abs_le.mp herr2
  refine ⟨hy0, ?_, hp0, ?_⟩
  · rw [abs_le]
    constructor <;> linarith
  · rw [abs_le]
    constructor <;> norm_num at * <;> linarith

theorem startHour_hour (k : ℤ) (hk0 : 0 ≤ k) (hk1 : k < 2400) :
    toInt (binary64 ((k : ℚ) / 100)) = k / 100 := by
  obtain ⟨hy0, herr, _, _⟩ := hundredths_error k hk0 hk1
  rw [toInt_of_nonneg hy0, Int.floor_eq_iff]
  by_cases hexact : k % 100 = 0
  · have hk : k = (k / 100) * 100 := by omega
    have hval : (k : ℚ) / 100 = ((k / 100 : ℤ) : ℚ) := by
      conv_lhs => rw [hk]
      push_cast
      field_simp
    rw [hval, binary64_intCast _ (by rw [abs_of_nonneg (by omega)]; omega)]
    constructor
    · exact le_rfl
    · linarith
  · have he := abs_le.mp herr
    have h1 : (k / 100) * 100 + 1 ≤ k := by omega
    have h2 : k ≤ (k / 100) * 100 + 99 := by omega
    have h1q : (((k / 100) * 100 + 1 : ℤ) : ℚ) ≤ k := by exact_mod_cast h1
    have h2q : (k : ℚ) ≤ (((k / 100) * 100 + 99 : ℤ) : ℚ) := by exact_mod_cast h2
    push_cast at h1q h2q
    constructor <;> norm_num at * <;> linarith

theorem startHour_minute_inexact (k : ℤ) (hk0 : 0 ≤ k) (hk1 : k < 2400) (hfrac : k % 5 ≠ 0) :
    toInt (binary64 (60 * binary64 ((k : ℚ) / 100))) = 3 * k / 5 := by
  obtain ⟨_, _, hp0, herr⟩ := hundredths_error k hk0 hk1
  rw [toInt_of_nonneg hp0, Int.floor_eq_iff]
  have he := abs_le.mp herr
  have h1 : (3 * k / 5) * 5 + 1 ≤ 3 * k := by omega
  have h2 : 3 * k ≤ (3 * k / 5) * 5 + 4 := by omega
  have h1q : (((3 * k / 5) * 5 + 1 : ℤ) : ℚ) ≤ ((3 * k : ℤ) : ℚ) := by exact_mod_cast h1
  have h2q : ((3 * k : ℤ) : ℚ) ≤ (((3 * k / 5) * 5 + 4 : ℤ) : ℚ) := by exact_mod_cast h2
  push_cast at h1q h2q
  constructor <;> norm_num at * <;> linarith

theorem startHour_minute_exact (k : ℤ) (hk0 : 0 ≤ k) (hk1 : k < 2400) (hfrac : k % 5 = 0) :
    toInt (binary64 (60 * binary64 ((k : ℚ) / 100))) = 3 * k / 5 ∨
    toInt (binary64 (60 * binary64 ((k : ℚ) / 100))) = 3 * k / 5 - 1 := by
  obtain ⟨_, _, hp0, herr⟩ := hundredths_error k hk0 hk1
  rw [toInt_of_nonneg hp0]
  have he := abs_le.mp herr
  have h1 : (3 * k / 5) * 5 = 3 * k := by omega
  have h1q : (((3 * k / 5) * 5 : ℤ) : ℚ) = ((3 * k : ℤ) : ℚ) := by exact_mod_cast h1
  push_cast at h1q
  rcases le_or_lt ((3 * k / 5 : ℤ) : ℚ) (binary64 (60 * binary64 ((k : ℚ) / 100))) with hge | hlt
  · left
    rw [Int.floor_eq_iff]
    constructor
    · exact hge
    · norm_num at *
      linarith
  · right
    rw [Int.floor_eq_iff]
    constructor
    · push_cast
      norm_num at *
      linarith
    · push_cast
      norm_num at *
      linarith

theorem startHour_minute_whole (h : ℤ) (hh0 : 0 ≤ h) (hh1 : h < 24) :
    toInt (binary64 (60 * binary64 (((100 * h : ℤ) : ℚ) / 100))) = 60 * h := by
  have hval : ((100 * h : ℤ) : ℚ) / 100 = ((h : ℤ) : ℚ) := by
    push_cast
    field_simp
  have hprod : (60 : ℚ) * ((h : ℤ) : ℚ) = ((60 * h : ℤ) : ℚ) := by push_cast; ring
  rw [hval, binary64_intCast _ (by rw [abs_of_nonneg hh0]; omega), hprod,
    binary64_intCast _ (by rw [abs_of_nonneg (by omega)]; omega),
    toInt_of_nonneg (by exact_mod_cast (show (0 : ℤ) ≤ 60 * h by omega)), Int.floor_intCast]

theorem startTime_pull_push (positive_degrees : ℚ → ℚ) (w : Widgets) (u : Uninitialised)
    (configuration : RouteMapConfiguration)
    (hh0 : 0 ≤ configuration.StartTime.hour) (hh1 : configuration.StartTime.hour < 24)
    (hm0 : 0 ≤ configuration.StartTime.minute) (hm1 : configuration.StartTime.minute < 60) :
    (Configuration positive_degrees (SetConfiguration w configuration) u).1.StartTime.hour
        = configuration.StartTime.hour ∧
    ((Configuration positive_degrees (SetConfiguration w configuration) u).1.StartTime.minute
        = configuration.StartTime.minute ∨
      (Configuration positive_degrees (SetConfiguration w configuration) u).1.StartTime.minute
        = configuration.StartTime.minute - 1) ∧
    (configuration.StartTime.minute % 3 = 1 →
      (Configuration positive_degrees (SetConfiguration w configuration) u).1.StartTime.minute
        = configuration.StartTime.minute) ∧
    (configuration.StartTime.minute % 3 = 2 →
      (Configuration positive_degrees (SetConfiguration w configuration) u).1.StartTime.minute
        = configuration.StartTime.minute - 1) := by
  simp only [Configuration, SetConfiguration]
  generalize configuration.StartTime.hour = h at hh0 hh1 ⊢
  generalize configuration.StartTime.minute = m at hm0 hm1 ⊢
  obtain ⟨q, hq0, hq1, hcases⟩ : ∃ q : ℤ, 0 ≤ q ∧ q < 20 ∧
      (m = 3 * q ∨ m = 3 * q + 1 ∨ m = 3 * q + 2) := ⟨m / 3, by omega, by omega, by omega⟩
  rcases hcases with hm | hm | hm
  · -- the text denotes `h + m / 60` exactly
    have htext := startHour_text h m q 0 hh0 hh1 hm0 hm1
      (by rw [hm]; push_cast; linarith) (by rw [hm]; push_cast; linarith)
    have hhour := startHour_hour (100 * h + 5 * q + 0) (by omega) (by omega)
    simp only [htext, toDouble_number, hhour]
    have hminute : toInt (binary64 (60 * binary64 (((100 * h + 5 * q + 0 : ℤ) : ℚ) / 100)))
          = 60 * h + 3 * q ∨
        (toInt (binary64 (60 * binary64 (((100 * h + 5 * q + 0 : ℤ) : ℚ) / 100)))
          = 60 * h + 3 * q - 1 ∧ 1 ≤ q) := by
      by_cases hzero : q = 0
      · left
        subst hzero
        have hwhole := startHour_minute_whole h hh0 hh1
        simpa using hwhole
      · rcases startHour_minute_exact (100 * h + 5 * q + 0) (by omega) (by omega) (by omega)
          with hx | hx
        · left
          rw [hx]
          omega
        · right
          refine ⟨?_, by omega⟩
          rw [hx]
          omega
    refine ⟨by omega, ?_, by omega, by omega⟩
    rcases hminute with hx | ⟨hx, hq⟩
    · left
      rw [hx, Int.tmod_eq_emod (by omega) (by norm_num)]
      omega
    · right
      rw [hx, Int.tmod_eq_emod (by omega) (by norm_num)]
      omega
  · -- the text rounds `m / 60` up
    have htext := startHour_text h m q 2 hh0 hh1 hm0 hm1
      (by rw [hm]; push_cast; linarith) (by rw [hm]; push_cast; linarith)
    have hhour := startHour_hour (100 * h + 5 * q + 2) (by omega) (by omega)
    have hminute := startHour_minute_inexact (100 * h + 5 * q + 2) (by omega) (by omega)
      (by omega)
    have hvalue : 3 * (100 * h + 5 * q + 2) / 5 = 60 * h + 3 * q + 1 := by omega
    simp only [htext, toDouble_number, hhour, hminute, hvalue]
    have hmod : (60 * h + 3 * q + 1).tmod 60 = m := by
      rw [Int.tmod_eq_emod (by omega) (by norm_num)]
      omega
    rw [hmod]
    exact ⟨by omega, Or.inl rfl, fun _ => rfl, fun h2 => by omega⟩
  · -- the text rounds `m / 60` down
    have htext := startHour_text h m q 3 hh0 hh1 hm0 hm1
      (by rw [hm]; push_cast; linarith) (by rw [hm]; push_cast; linarith)
    have hhour := startHour_hour (100 * h + 5 * q + 3) (by omega) (by omega)
    have hminute := startHour_minute_inexact (100 * h + 5 * q + 3) (by omega) (by omega)
      (by omega)
    have hvalue : 3 * (100 * h + 5 * q + 3) / 5 = 60 * h + 3 * q + 1 := by omega
    simp only [htext, toDouble_number, hhour, hminute, hvalue]
    have hmod : (60 * h + 3 * q + 1).tmod 60 = m - 1 := by
      rw [Int.tmod_eq_emod (by omega) (by norm_num)]
      omega
    rw [hmod]
    exact ⟨by omega, Or.inr rfl, fun h1 => by omega, fun _ => rfl⟩

/-! ## The start time -/

/-- C4 fails on the code. The start time 0:02 is shown as the text "0.03"; read
back, `(int)(60 * 0.03) % 60` is minute 1, not minute 2. -/
theorem startTime_roundTrip_counterexample :
    (SetConfiguration sampleWidgets twoPastMidnight).m_tStartHour
        = Text.number (binary64 (3 / 100)) ∧
    (Configuration wrap360 (SetConfiguration sampleWidgets twoPastMidnight)
      sampleUninitialised).1.StartTime.minute = 1 ∧
    (Configuration wrap360 (SetConfiguration sampleWidgets twoPastMidnight)
      sampleUninitialised).1.StartTime.minute ≠ twoPastMidnight.StartTime.minute := by
  have htext : (SetConfiguration sampleWidgets twoPastMidnight).m_tStartHour
      = Text.number (binary64 (3 / 100)) := by
    have h := startHour_text 0 2 0 3 (by norm_num) (by norm_num) (by norm_num) (by norm_num)
      (by norm_num) (by norm_num)
    simp only [SetConfiguration, twoPastMidnight]
    rw [h]
    norm_num
  have hminute := (startTime_pull_push wrap360 sampleWidgets sampleUninitialised twoPastMidnight
    (by decide) (by decide) (by decide) (by decide)).2.2.2 (by decide)
  have hone : (Configuration wrap360 (SetConfiguration sampleWidgets twoPastMidnight)
      sampleUninitialised).1.StartTime.minute = 1 := by
    rw [hminute]
    decide
  refine ⟨htext, hone, ?_⟩
  rw [hone]
  decide

/-- C4 as amended. For a start time with hour `h` in `0 .. 23` and minute `m` in
`0 .. 59`, `SetConfiguration` followed by `Configuration` recovers the hour `h`
exactly, and the minute it recovers is `m` or `m - 1`: it is `m` when
`m mod 3 = 1` (the two-decimal text rounds `m / 60` up) and `m - 1` when
`m mod 3 = 2` (the text rounds `m / 60` down and the conversion to `int`
truncates). When `m mod 3 = 0` the text denotes `h + m / 60` exactly and the
minute read back rests on how the binary product `60 * hour` is rounded; the
statement only bounds it there. -/
theorem startTime_roundTrip (positive_degrees : ℚ → ℚ) (w : Widgets) (u : Uninitialised)
    (configuration : RouteMapConfiguration)
    (hh0 : 0 ≤ configuration.StartTime.hour) (hh1 : configuration.StartTime.hour < 24)
    (hm0 : 0 ≤ configuration.StartTime.minute) (hm1 : configuration.StartTime.minute < 60) :
    (Configuration positive_degrees (SetConfiguration w configuration) u).1.StartTime.hour
        = configuration.StartTime.hour ∧
    ((Configuration positive_degrees (SetConfiguration w configuration) u).1.StartTime.minute
        = configuration.StartTime.minute ∨
      (Configuration positive_degrees (SetConfiguration w configuration) u).1.StartTime.minute
        = configuration.StartTime.minute - 1) ∧
    (configuration.StartTime.minute % 3 = 1 →
      (Configuration positive_degrees (SetConfiguration w configuration) u).1.StartTime.minute
        = configuration.StartTime.minute) ∧
    (configuration.StartTime.minute % 3 = 2 →
      (Configuration positive_degrees (SetConfiguration w configuration) u).1.StartTime.minute
        = configuration.StartTime.minute - 1) :=
  startTime_pull_push positive_degrees w u configuration hh0 hh1 hm0 hm1

/-- C4 as amended, at the start time 0:02. -/
theorem startTime_roundTrip_witness :
    (Configuration wrap360 (SetConfiguration sampleWidgets twoPastMidnight)
      sampleUninitialised).1.StartTime.hour = 0 ∧
    (Configuration wrap360 (SetConfiguration sampleWidgets twoPastMidnight)
      sampleUninitialised).1.StartTime.minute = 2 - 1 :=
  have h := startTime_roundTrip wrap360 sampleWidgets sampleUninitialised twoPastMidnight
    (by decide) (by decide) (by decide) (by decide)
  ⟨h.1, h.2.2.2 (by decide)⟩

/-! ## The time step -/

/-- C5. For a time step `dt ≥ 0`, `SetConfiguration` shows
`hours = dt div 3600`, `minutes = (dt mod 3600) div 60` and `seconds = dt mod 60`
with minutes and seconds in `0 .. 59`, every intermediate value lies between `0`
and `dt`, and `Configuration` recomposes exactly `dt` from the three spin
controls; `dt = 3725` is shown as 1 hour, 2 minutes, 5 seconds. -/
theorem timeStep_roundTrip (positive_degrees : ℚ → ℚ) (w : Widgets) (u : Uninitialised)
    (configuration : RouteMapConfiguration) (hdt : 0 ≤ configuration.dt) :
    (SetConfiguration w configuration).m_sTimeStepHours = configuration.dt / 3600 ∧
    (SetConfiguration w configuration).m_sTimeStepMinutes = configuration.dt % 3600 / 60 ∧
    (SetConfiguration w configuration).m_sTimeStepSeconds = configuration.dt % 60 ∧
    0 ≤ (SetConfiguration w configuration).m_sTimeStepHours ∧
    (SetConfiguration w configuration).m_sTimeStepHours * 3600 ≤ configuration.dt ∧
    0 ≤ (SetConfiguration w configuration).m_sTimeStepMinutes ∧
    (SetConfiguration w configuration).m_sTimeStepMinutes < 60 ∧
    0 ≤ (SetConfiguration w configuration).m_sTimeStepSeconds ∧
    (SetConfiguration w configuration).m_sTimeStepSeconds < 60 ∧
    (Configuration positive_degrees (SetConfiguration w configuration) u).1.dt = configuration.dt ∧
    (configuration.dt = 3725 →
      (SetConfiguration w configuration).m_sTimeStepHours = 1 ∧
      (SetConfiguration w configuration).m_sTimeStepMinutes = 2 ∧
      (SetConfiguration w configuration).m_sTimeStepSeconds = 5) := by
  have hhours : configuration.dt.tdiv 3600 = configuration.dt / 3600 :=
    Int.tdiv_eq_ediv hdt (by norm_num)
  have hrest : 0 ≤ configuration.dt - configuration.dt / 3600 * 3600 := by omega
  have hminutes : (configuration.dt - configuration.dt / 3600 * 3600).tdiv 60 =
      (configuration.dt - configuration.dt / 3600 * 3600) / 60 :=
    Int.tdiv_eq_ediv hrest (by norm_num)
  simp only [SetConfiguration, Configuration, hhours, hminutes]
  refine ⟨trivial, ?_, ?_, ?_, ?_, ?_, ?_, ?_, ?_, ?_, ?_⟩ <;> omega

/-- C5, at the time step of 3725 seconds. -/
theorem timeStep_roundTrip_witness :
    (SetConfiguration sampleWidgets { sampleConfiguration with dt := 3725 }).m_sTimeStepHours
        = 1 ∧
    (SetConfiguration sampleWidgets { sampleConfiguration with dt := 3725 }).m_sTimeStepMinutes
        = 2 ∧
    (SetConfiguration sampleWidgets { sampleConfiguration with dt := 3725 }).m_sTimeStepSeconds
        = 5 ∧
    (Configuration wrap360 (SetConfiguration sampleWidgets { sampleConfiguration with dt := 3725 })
        sampleUninitialised).1.dt = 3725 :=
  have h := timeStep_roundTrip wrap360 sampleWidgets sampleUninitialised
    { sampleConfiguration with dt := 3725 } (by decide)
  ⟨(h.2.2.2.2.2.2.2.2.2.2 rfl).1, (h.2.2.2.2.2.2.2.2.2.2 rfl).2.1,
    (h.2.2.2.2.2.2.2.2.2.2 rfl).2.2, h.2.2.2.2.2.2.2.2.2.1⟩

/-! ## Configuration and Update: dialogs and forwarding -/

/-- C7 fails on the code. With the three time-step spin controls at zero and the
current route holding `sampleConfiguration` (time step 3600), `Update` stores
the configuration read from the widgets, whose time step is zero: the current
route no longer holds the prior configuration. -/
theorem zeroTimeStep_forwarded_counterexample :
    60 * (60 * zeroStepWidgets.m_sTimeStepHours + zeroStepWidgets.m_sTimeStepMinutes)
        + zeroStepWidgets.m_sTimeStepSeconds = 0 ∧
    (Update wrap360 zeroStepWidgets sampleUninitialised
      { currentRoute := sampleConfiguration }).1.currentRoute.dt = 0 ∧
    (Update wrap360 zeroStepWidgets sampleUninitialised { currentRoute := sampleConfiguration }).1
        ≠ { currentRoute := sampleConfiguration } := by
  refine ⟨by decide, by decide, ?_⟩
  intro h
  have hdt := congrArg (fun wr => wr.currentRoute.dt) h
  revert hdt
  decide

/-- C7 as amended. When the time-step spin controls sum to zero seconds,
`Configuration` shows the dialog "Zero Time Step invalid" and still returns the
configuration, with time step zero; `Update` shows the same dialog and stores
that configuration as the configuration of the current route. -/
theorem zeroTimeStep_warned_and_forwarded (positive_degrees : ℚ → ℚ) (w : Widgets)
    (u : Uninitialised) (wr : WeatherRouting)
    (hzero : 60 * (60 * w.m_sTimeStepHours + w.m_sTimeStepMinutes) + w.m_sTimeStepSeconds = 0) :
    MessageDialog.ZeroTimeStep ∈ (Configuration positive_degrees w u).2 ∧
    (Configuration positive_degrees w u).1.dt = 0 ∧
    MessageDialog.ZeroTimeStep ∈ (Update positive_degrees w u wr).2 ∧
    (Update positive_degrees w u wr).1.currentRoute = (Configuration positive_degrees w u).1 ∧
    (Update positive_degrees w u wr).1.currentRoute.dt = 0 := by
  have hdialog : MessageDialog.ZeroTimeStep ∈ (Configuration positive_degrees w u).2 := by
    rw [configuration_dialogs, if_pos hzero]
    simp
  have hdt : (Configuration positive_degrees w u).1.dt = 0 := by rw [configuration_dt]; exact hzero
  exact ⟨hdialog, hdt, hdialog, rfl, hdt⟩

/-- C7 as amended, at the widgets with all three time-step spin controls at
zero. -/
theorem zeroTimeStep_warned_and_forwarded_witness :
    MessageDialog.ZeroTimeStep ∈ (Configuration wrap360 zeroStepWidgets sampleUninitialised).2 ∧
    (Update wrap360 zeroStepWidgets sampleUninitialised
      { currentRoute := sampleConfiguration }).1.currentRoute.dt = 0 :=
  have h := zeroTimeStep_warned_and_forwarded wrap360 zeroStepWidgets sampleUninitialised
    { currentRoute := sampleConfiguration } (by decide)
  ⟨h.1, h.2.2.2.2⟩

/-- C8. `Configuration` shows the dialog "less than 4 different degree steps"
exactly when the list box has fewer than 4 entries; with or without it the
configuration returned carries one degree step per entry of the list box, and
`Update` stores that configuration as the configuration of the current route
and shows the dialog in the same cases. -/
theorem lessThan4_warning_iff (positive_degrees : ℚ → ℚ) (w : Widgets) (u : Uninitialised)
    (wr : WeatherRouting) :
    (MessageDialog.LessThan4DegreeSteps ∈ (Configuration positive_degrees w u).2 ↔
      w.m_lDegreeSteps.length < 4) ∧
    (Configuration positive_degrees w u).1.DegreeSteps.length = w.m_lDegreeSteps.length ∧
    (Update positive_degrees w u wr).1.currentRoute = (Configuration positive_degrees w u).1 ∧
    (MessageDialog.LessThan4DegreeSteps ∈ (Update positive_degrees w u wr).2 ↔
      w.m_lDegreeSteps.length < 4) := by
  have hiff : MessageDialog.LessThan4DegreeSteps ∈ (Configuration positive_degrees w u).2 ↔
      w.m_lDegreeSteps.length < 4 := by
    rw [configuration_dialogs]
    by_cases hz :
        60 * (60 * w.m_sTimeStepHours + w.m_sTimeStepMinutes) + w.m_sTimeStepSeconds = 0 <;>
      by_cases hc : w.m_lDegreeSteps.length < 4 <;> simp [hz, hc]
  refine ⟨hiff, ?_, rfl, hiff⟩
  rw [configuration_degreeSteps, length_sort, length_readDegreeSteps]

/-! ## Configuration: reading the list box -/

/-- C9 fails on the code. With the entry "abc" in the list box, `Configuration`
shows no dialog at all and returns a configuration with five degree steps, and
`Update` stores it: the current route no longer holds the prior configuration. -/
theorem malformed_entry_counterexample :
    Text.malformed "abc" ∈ malformedWidgets.m_lDegreeSteps ∧
    (Configuration wrap360 malformedWidgets sampleUninitialised).2 = [] ∧
    (Configuration wrap360 malformedWidgets sampleUninitialised).1.DegreeSteps.length = 5 ∧
    (Update wrap360 malformedWidgets sampleUninitialised
      { currentRoute := sampleConfiguration }).1.currentRoute
        = (Configuration wrap360 malformedWidgets sampleUninitialised).1 ∧
    (Update wrap360 malformedWidgets sampleUninitialised { currentRoute := sampleConfiguration }).1
        ≠ { currentRoute := sampleConfiguration } := by
  have hlen :
      (Configuration wrap360 malformedWidgets sampleUninitialised).1.DegreeSteps.length = 5 := by
    rw [configuration_degreeSteps, length_sort, length_readDegreeSteps]
    rfl
  refine ⟨by simp [malformedWidgets], by decide, hlen, rfl, ?_⟩
  intro h
  have hsteps := congrArg (fun wr => wr.currentRoute.DegreeSteps.length) h
  simp only [update_currentRoute, hlen] at hsteps
  revert hsteps
  decide

/-- C9 as amended. `Configuration` has no parse-error outcome: when the list box
holds an entry that is no number, it still returns a configuration, with one
degree step per entry, the only dialogs it can show are the zero-time-step and
the fewer-than-4 warnings, and `Update` stores the configuration as the
configuration of the current route. -/
theorem malformed_entry_still_returned (positive_degrees : ℚ → ℚ) (w : Widgets)
    (u : Uninitialised) (wr : WeatherRouting)
    (raw : String) (hmalformed : Text.malformed raw ∈ w.m_lDegreeSteps) :
    0 < (Configuration positive_degrees w u).1.DegreeSteps.length ∧
    (Configuration positive_degrees w u).1.DegreeSteps.length = w.m_lDegreeSteps.length ∧
    (∀ dialog ∈ (Configuration positive_degrees w u).2,
      dialog = MessageDialog.ZeroTimeStep ∨ dialog = MessageDialog.LessThan4DegreeSteps) ∧
    (Update positive_degrees w u wr).1.currentRoute = (Configuration positive_degrees w u).1 := by
  have hlen : (Configuration positive_degrees w u).1.DegreeSteps.length
      = w.m_lDegreeSteps.length := by
    rw [configuration_degreeSteps, length_sort, length_readDegreeSteps]
  refine ⟨?_, hlen, ?_, rfl⟩
  · rw [hlen]
    exact List.length_pos_of_mem hmalformed
  · intro dialog hdialog
    rw [configuration_dialogs] at hdialog
    by_cases hz :
        60 * (60 * w.m_sTimeStepHours + w.m_sTimeStepMinutes) + w.m_sTimeStepSeconds = 0 <;>
      by_cases hc : w.m_lDegreeSteps.length < 4 <;> simp [hz, hc] at hdialog <;> tauto

/-- C9 as amended, at the list box with the entry "abc". -/
theorem malformed_entry_still_returned_witness :
    (Configuration wrap360 malformedWidgets sampleUninitialised).1.DegreeSteps.length = 5 ∧
    (Update wrap360 malformedWidgets sampleUninitialised
      { currentRoute := sampleConfiguration }).1.currentRoute
        = (Configuration wrap360 malformedWidgets sampleUninitialised).1 :=
  have h := malformed_entry_still_returned wrap360 malformedWidgets sampleUninitialised
    { currentRoute := sampleConfiguration } "abc" (by simp [malformedWidgets])
  ⟨h.2.1, h.2.2.2⟩

/-- C10. When every entry of the list box is a well-formed numeral, in any
order, the degree steps returned by `Configuration` are sorted ascending and are
a rearrangement of the `positive_degrees` values of the entries: each returned
member is the canonical form of an entry and each entry has its canonical form
among the returned members. -/
theorem configuration_degreeSteps_sorted_canonical (positive_degrees : ℚ → ℚ) (w : Widgets)
    (u : Uninitialised)
    (values : List ℚ) (hentries : w.m_lDegreeSteps = values.map Text.number) :
    (Configuration positive_degrees w u).1.DegreeSteps.Sorted (fun a b => a ≤ b) ∧
    (Configuration positive_degrees w u).1.DegreeSteps.Perm (values.map positive_degrees) ∧
    (∀ x, x ∈ (Configuration positive_degrees w u).1.DegreeSteps →
      ∃ value ∈ values, x = positive_degrees value) ∧
    (∀ value ∈ values,
      positive_degrees value ∈ (Configuration positive_degrees w u).1.DegreeSteps) := by
  have hsteps : (Configuration positive_degrees w u).1.DegreeSteps
      = sort (values.map positive_degrees) := by
    rw [configuration_degreeSteps, hentries, readDegreeSteps_numbers]
  rw [hsteps]
  refine ⟨sort_sorted _, sort_perm _, ?_, ?_⟩
  · intro x hx
    rw [mem_sort, List.mem_map] at hx
    obtain ⟨value, hvalue, rfl⟩ := hx
    exact ⟨value, hvalue, rfl⟩
  · intro value hvalue
    rw [mem_sort]
    exact List.mem_map_of_mem _ hvalue

/-- C10, at the list box holding the numerals 350, -10, 20 in that order. -/
theorem configuration_degreeSteps_sorted_canonical_witness :
    (Configuration wrap360 { sampleWidgets with
        m_lDegreeSteps := [Text.number 350, Text.number (-10), Text.number 20] }
      sampleUninitialised).1.DegreeSteps.Sorted (fun a b => a ≤ b) ∧
    (Configuration wrap360 { sampleWidgets with
        m_lDegreeSteps := [Text.number 350, Text.number (-10), Text.number 20] }
      sampleUninitialised).1.DegreeSteps.Perm
        ([350, -10, 20].map wrap360) :=
  have h := configuration_degreeSteps_sorted_canonical wrap360
    { sampleWidgets with
        m_lDegreeSteps := [Text.number 350, Text.number (-10), Text.number 20] }
    sampleUninitialised [350, -10, 20] rfl
  ⟨h.1, h.2.1⟩

/-! ## The degree steps through the list box -/

theorem format_one_decimal (k : ℤ) (hk : |k| < 2 ^ 52) :
    Format 1 (binary64 ((k : ℚ) / 10)) = Text.number (binary64 ((k : ℚ) / 10)) := by
  have hround : roundHalfEven (binary64 ((k : ℚ) / 10) * 10 ^ 1) = k := by
    by_cases h0 : k = 0
    · subst h0
      simp only [Int.cast_zero, zero_div, binary64_zero, zero_mul]
      exact roundHalfEven_intCast 0
    · have habs : (1 : ℚ) ≤ |(k : ℚ)| := by
        rw [← Int.cast_abs]
        exact_mod_cast Int.one_le_abs h0
      have habs' : |(k : ℚ)| < 2 ^ 52 := by
        rw [← Int.cast_abs]
        exact_mod_cast hk
      have hten : |(k : ℚ) / 10| = |(k : ℚ)| / 10 := by
        rw [abs_div, abs_of_pos (by norm_num : (0 : ℚ) < 10)]
      have hnormal : (2 : ℚ) ^ (-1022 : ℤ) ≤ |(k : ℚ) / 10| := by
        have hsmall : (2 : ℚ) ^ (-1022 : ℤ) ≤ 1 / 10 := by
          rw [zpow_neg, inv_le_comm₀ (by positivity) (by norm_num)]
          have h4 : ((1 : ℚ) / 10)⁻¹ ≤ 2 ^ (4 : ℤ) := by norm_num
          exact le_trans h4 (zpow_le_zpow_right₀ (by norm_num) (by norm_num))
        rw [hten]
        linarith
      have herr := abs_le.mp (binary64_error_rel hnormal)
      rw [hten] at herr
      have hk2 : |(k : ℚ)| / 10 / 2 ^ 53 < 1 / 20 := by
        rw [div_div, div_lt_div_iff₀ (by positivity) (by norm_num)]
        norm_num at habs' ⊢
        linarith
      apply roundHalfEven_eq_of_near
      · rw [pow_one]
        linarith
      · rw [pow_one]
        linarith
  rw [Format, hround, pow_one]

theorem degreeSteps_pull_push (positive_degrees : ℚ → ℚ) (w : Widgets) (u : Uninitialised)
    (configuration : RouteMapConfiguration)
    (hdecimal : ∀ x ∈ configuration.DegreeSteps,
      ∃ k : ℤ, |k| < 2 ^ 52 ∧ x = binary64 ((k : ℚ) / 10)) :
    (Configuration positive_degrees (SetConfiguration w configuration) u).1.DegreeSteps =
      sort (configuration.DegreeSteps.map positive_degrees) := by
  have htexts : configuration.DegreeSteps.map (Format 1) =
      configuration.DegreeSteps.map Text.number := by
    apply List.map_congr_left
    intro x hx
    obtain ⟨k, hk, rfl⟩ := hdecimal x hx
    exact format_one_decimal k hk
  rw [configuration_degreeSteps]
  simp only [SetConfiguration, htexts, readDegreeSteps_numbers]

theorem wrap360_equivalent : EquivalentHeadingsCompareEqual wrap360 := by
  intro degrees
  have hfloor : ⌊(degrees + 360) / 360⌋ = ⌊degrees / 360⌋ + 1 := by
    rw [add_div, div_self (by norm_num : (360 : ℚ) ≠ 0)]
    exact Int.floor_add_one _
  simp only [wrap360, hfloor]
  push_cast
  ring

theorem wrap360_of_canonical (x : ℚ) (h0 : 0 ≤ x) (h1 : x < 360) : wrap360 x = x := by
  have hfloor : ⌊x / 360⌋ = 0 := by
    rw [Int.floor_eq_iff]
    constructor
    · simpa using div_nonneg h0 (by norm_num : (0 : ℚ) ≤ 360)
    · rw [Int.cast_zero, zero_add, div_lt_one (by norm_num)]
      exact h1
  simp [wrap360, hfloor]

theorem fullTurn_decimal : ∀ x ∈ fullTurnConfiguration.DegreeSteps,
    ∃ k : ℤ, |k| < 2 ^ 52 ∧ x = binary64 ((k : ℚ) / 10) := by
  intro x hx
  simp only [fullTurnConfiguration, List.mem_cons, List.mem_singleton, List.not_mem_nil,
    or_false] at hx
  rcases hx with rfl | rfl
  · refine ⟨100, by norm_num, ?_⟩
    have h := binary64_intCast 10 (by norm_num)
    norm_num at h ⊢
    exact h.symm
  · refine ⟨3700, by norm_num, ?_⟩
    have h := binary64_intCast 370 (by norm_num)
    norm_num at h ⊢
    exact h.symm

/-- C6 fails on the code. The degree steps `[10, 370]` are sorted ascending and
have no decimals, and the two are a full turn apart. Whatever function
`positive_degrees` is, as long as it gives equivalent headings the same value
(as `wrap360` does), `SetConfiguration` followed by `Configuration` does not
return `[10, 370]`: it returns the same value twice. With `wrap360` it returns
`[10, 10]`. -/
theorem degreeSteps_roundTrip_counterexample :
    fullTurnConfiguration.DegreeSteps.Sorted (fun a b => a ≤ b) ∧
    fullTurnConfiguration.DegreeSteps = [binary64 (100 / 10), binary64 (3700 / 10)] ∧
    EquivalentHeadingsCompareEqual wrap360 ∧
    (Configuration wrap360 (SetConfiguration sampleWidgets fullTurnConfiguration)
      sampleUninitialised).1.DegreeSteps = [10, 10] ∧
    ¬ ∃ positive_degrees : ℚ → ℚ, EquivalentHeadingsCompareEqual positive_degrees ∧
      (Configuration positive_degrees (SetConfiguration sampleWidgets fullTurnConfiguration)
        sampleUninitialised).1.DegreeSteps = fullTurnConfiguration.DegreeSteps := by
  have hsorted : fullTurnConfiguration.DegreeSteps.Sorted (fun a b => a ≤ b) := by
    simp only [fullTurnConfiguration, List.Sorted]
    norm_num
  have hdoubles : fullTurnConfiguration.DegreeSteps
      = [binary64 (100 / 10), binary64 (3700 / 10)] := by
    have h10 := binary64_intCast 10 (by norm_num)
    have h370 := binary64_intCast 370 (by norm_num)
    norm_num at h10 h370 ⊢
    rw [h10, h370]
    rfl
  have hpulled : ∀ positive_degrees : ℚ → ℚ,
      (Configuration positive_degrees (SetConfiguration sampleWidgets fullTurnConfiguration)
        sampleUninitialised).1.DegreeSteps
        = sort [positive_degrees 10, positive_degrees 370] := by
    intro positive_degrees
    rw [degreeSteps_pull_push positive_degrees sampleWidgets sampleUninitialised
      fullTurnConfiguration fullTurn_decimal]
    rfl
  refine ⟨hsorted, hdoubles, wrap360_equivalent, ?_, ?_⟩
  · rw [hpulled, wrap360_of_canonical 10 (by norm_num) (by norm_num)]
    have h370 : wrap360 370 = 10 := by
      have h := wrap360_equivalent 10
      rw [wrap360_of_canonical 10 (by norm_num) (by norm_num)] at h
      norm_num at h
      exact h
    rw [h370]
    simp [sort]
  · rintro ⟨positive_degrees, hequivalent, hsame⟩
    rw [hpulled] at hsame
    have h370 : positive_degrees 370 = positive_degrees 10 := by
      have h := hequivalent 10
      norm_num at h
      exact h
    rw [h370] at hsame
    simp only [sort, List.insertionSort, List.orderedInsert, le_refl, if_true,
      fullTurnConfiguration] at hsame
    have h1 := congrArg (fun l => l.head?) hsame
    have h2 := congrArg (fun l => l.tail.head?) hsame
    simp only [List.head?_cons, List.tail_cons, Option.some.injEq] at h1 h2
    rw [h1] at h2
    norm_num at h2

/-- C6 as amended. For a configuration whose degree steps are sorted ascending,
are binary64 numbers nearest to a numeral with at most one decimal digit, and
are in canonical form (`positive_degrees` returns each of them unchanged),
`SetConfiguration` followed by `Configuration` returns the same degree steps. A
member that `positive_degrees` changes comes back as what `positive_degrees`
makes of it. -/
theorem degreeSteps_roundTrip (positive_degrees : ℚ → ℚ) (w : Widgets) (u : Uninitialised)
    (configuration : RouteMapConfiguration)
    (hsorted : configuration.DegreeSteps.Sorted (fun a b => a ≤ b))
    (hdecimal : ∀ x ∈ configuration.DegreeSteps,
      ∃ k : ℤ, |k| < 2 ^ 52 ∧ x = binary64 ((k : ℚ) / 10))
    (hcanonical : ∀ x ∈ configuration.DegreeSteps, positive_degrees x = x) :
    (Configuration positive_degrees (SetConfiguration w configuration) u).1.DegreeSteps
      = configuration.DegreeSteps := by
  have hfixed : configuration.DegreeSteps.map positive_degrees = configuration.DegreeSteps := by
    conv_rhs => rw [← List.map_id configuration.DegreeSteps]
    apply List.map_congr_left
    intro x hx
    exact hcanonical x hx
  rw [degreeSteps_pull_push positive_degrees w u configuration hdecimal, hfixed,
    sort_eq_self hsorted]

theorem binary64_tenth_bounds : (10 : ℚ) < binary64 (101 / 10) ∧ binary64 (101 / 10) < 11 := by
  have herr := abs_le.mp (binary64_error_of_abs_lt (x := (101 : ℚ) / 10) (E := 4) (by norm_num)
    (by rw [abs_of_pos (by norm_num)]; norm_num))
  have hpow : (2 : ℚ) ^ ((4 : ℤ) - 54) ≤ 1 / 100 := by norm_num
  constructor <;> norm_num at * <;> linarith

/-- C6 as amended, at the degree steps `[10.1, 20, 330]` with `wrap360` for
`positive_degrees`. -/
theorem degreeSteps_roundTrip_witness :
    (Configuration wrap360 (SetConfiguration sampleWidgets canonicalConfiguration)
      sampleUninitialised).1.DegreeSteps = [binary64 (101 / 10), 20, 330] :=
  degreeSteps_roundTrip wrap360 sampleWidgets sampleUninitialised canonicalConfiguration
    (by
      have hb := binary64_tenth_bounds
      simp only [canonicalConfiguration, List.Sorted, List.pairwise_cons, List.mem_cons,
        List.mem_singleton, List.not_mem_nil, or_false, forall_eq_or_imp, forall_eq,
        List.Pairwise.nil, and_true, IsEmpty.forall_iff, implies_true]
      refine ⟨⟨by linarith, by linarith⟩, by norm_num⟩)
    (by
      intro x hx
      simp only [canonicalConfiguration, List.mem_cons, List.mem_singleton, List.not_mem_nil,
        or_false] at hx
      rcases hx with rfl | rfl | rfl
      · exact ⟨101, by norm_num, by norm_num⟩
      · refine ⟨200, by norm_num, ?_⟩
        have h := binary64_intCast 20 (by norm_num)
        norm_num at h ⊢
        exact h.symm
      · refine ⟨3300, by norm_num, ?_⟩
        have h := binary64_intCast 330 (by norm_num)
        norm_num at h ⊢
        exact h.symm)
    (by
      have hb := binary64_tenth_bounds
      intro x hx
      simp only [canonicalConfiguration, List.mem_cons, List.mem_singleton, List.not_mem_nil,
        or_false] at hx
      rcases hx with rfl | rfl | rfl
      · exact wrap360_of_canonical _ (by linarith) (by linarith)
      · exact wrap360_of_canonical _ (by norm_num) (by norm_num)
      · exact wrap360_of_canonical _ (by norm_num) (by norm_num))

end ConfigurationDialog
